import Mathlib

/-!
Verification development for the AstroPhotoTraverser metadata reconciliation
engine (src/core.py, src/config.py, src/models.py).

The engine is embedded shallowly: Python strings are Lean strings (sequences
of characters, accessed through the `data` field to stay kernel-computable),
Python dict-based metadata bags are association lists from field name to an
optional string (a key can be present with value None, mirroring Python),
filesystem paths are lists of path segments, and the two external header
readers (astropy FITS and exifread, which perform file io) are supplied as an
input capability per file, exactly as the specification treats them.  Regular
expressions from the source are compiled by hand into deterministic matchers;
each one is specialised to its pattern and follows the leftmost, greedy
semantics of the Python `re` module on that pattern.
-/

/-! ## Basic string and list helpers -/

/-- Character list of a string (kernel friendly). -/
def strData (s : String) : List Char := s.data

/-- ASCII lowercase of a character list, modelling Python `str.lower` on
the ASCII inputs handled by the scanner. -/
def lowerL (cs : List Char) : List Char := cs.map Char.toLower

/-- ASCII lowercase of a string. -/
def lowerS (s : String) : String := String.mk (lowerL s.data)

/-- Whether `a` is an initial segment of `b`. -/
def leadsL : List Char → List Char → Bool
  | [], _ => true
  | _ :: _, [] => false
  | a :: as, b :: bs => a == b && leadsL as bs

/-- Whether `a` occurs as a contiguous run inside `b` (Python `in`). -/
def infixL (a : List Char) : List Char → Bool
  | [] => leadsL a []
  | b :: bs => leadsL a (b :: bs) || infixL a bs

/-- Python `needle in hay` on strings. -/
def strContains (needle hay : String) : Bool := infixL needle.data hay.data

/-- Python `s.startswith(p)`. -/
def strStarts (s p : String) : Bool := leadsL p.data s.data

/-- Python `s.endswith(p)`. -/
def strEnds (s p : String) : Bool := leadsL p.data.reverse s.data.reverse

/-- Python `s.strip()`: remove leading and trailing whitespace. -/
def strTrim (s : String) : String :=
  String.mk (((s.data.dropWhile Char.isWhitespace).reverse.dropWhile
    Char.isWhitespace).reverse)

/-- Greedy run of characters satisfying `p` (maximal munch), returning the
run and the remainder. -/
def grab (p : Char → Bool) : List Char → List Char × List Char
  | [] => ([], [])
  | c :: cs =>
    if p c then
      let r := grab p cs
      (c :: r.1, r.2)
    else ([], c :: cs)

/-- Consume an exact literal, returning the remainder on success. -/
def stripLit : List Char → List Char → Option (List Char)
  | [], cs => some cs
  | _ :: _, [] => none
  | l :: ls, c :: cs => if c == l then stripLit ls cs else none

/-- Consume an exact case-insensitive literal (for `re.IGNORECASE`). -/
def stripLitCI : List Char → List Char → Option (List Char)
  | [], cs => some cs
  | _ :: _, [] => none
  | l :: ls, c :: cs => if c.toLower == l.toLower then stripLitCI ls cs else none

/-- Consume exactly `n` characters all satisfying `p`. -/
def takeCount (p : Char → Bool) : Nat → List Char → Option (List Char × List Char)
  | 0, cs => some ([], cs)
  | _ + 1, [] => none
  | n + 1, c :: cs =>
    if p c then (takeCount p n cs).map (fun r => (c :: r.1, r.2)) else none

/-- `[\d.]` character class of the exposure group. -/
def isExpChar (c : Char) : Bool := c.isDigit || c == '.'

/-- Word characters for the `\b` boundary of the `re` module. -/
def isWordChar (c : Char) : Bool := c.isAlphanum || c == '_'

/-! ## Metadata bags

Python passes metadata between stages as dicts from field name to value.
A key can be absent, present with `None`, or present with a string; `get`
collapses absent and `None`, while `update`/`items` see presence.  We embed
dicts as association lists with unique keys and dict update semantics. -/

/-- A Python metadata dict: association list from key to optional string. -/
abbrev Meta := List (String × Option String)

/-- Python truthiness of a value: `None` and the empty string are falsy. -/
def truthy : Option String → Bool
  | none => false
  | some s => !s.isEmpty

/-- Python `meta.get(k)`: `None` when the key is absent. -/
def metaGet (m : Meta) (k : String) : Option String :=
  match m.lookup k with
  | some v => v
  | none => none

/-- Python `meta.get(k, d)`: the default is used only when the key is absent. -/
def metaGetD (m : Meta) (k : String) (d : Option String) : Option String :=
  match m.lookup k with
  | some v => v
  | none => d

/-- Python `meta[k] = v`: replace in place or append (dict insertion order). -/
def metaSet : Meta → String → Option String → Meta
  | [], k, v => [(k, v)]
  | (k0, v0) :: rest, k, v =>
    if k0 == k then (k, v) :: rest else (k0, v0) :: metaSet rest k v

/-- Python `meta.update({k: v for k, v in em.items() if v})`: every truthy
entry of `em` overwrites (or adds to) `m`. -/
def metaUpdateTruthy (m em : Meta) : Meta :=
  em.foldl (fun acc kv => if truthy kv.2 then metaSet acc kv.1 kv.2 else acc) m

/-! ## Configuration (src/config.py) -/

/-- `config.FILE_TYPES`: extension to extractor category. -/
def FILE_TYPES : List (String × String) :=
  [(".fit", "fits"), (".fits", "fits"), (".cr2", "exif"), (".dng", "exif"),
   (".jpg", "exif"), (".jpeg", "exif")]

/-- `config.FILTER_KEYWORDS`, in source (dict insertion) order. -/
def FILTER_KEYWORDS : List (String × String) :=
  [("lxtrme", "L-eXtreme"), ("lxtreme", "L-eXtreme"), ("lextreme", "L-eXtreme"),
   ("l-extreme", "L-eXtreme"), ("lenhance", "L-eNhance"), ("l-enhance", "L-eNhance"),
   ("lultimate", "L-Ultimate"), ("l-ultimate", "L-Ultimate"), ("l-pro", "L-Pro"),
   ("lpro", "L-Pro"), ("uvir", "UV/IR Cut"), ("uv/ir", "UV/IR Cut"),
   ("irblock", "UV/IR Cut"), ("irblocked", "UV/IR Cut"), ("ir-block", "UV/IR Cut"),
   ("ir filter", "UV/IR Cut"), ("halpha", "Ha"), ("ha", "Ha"), ("h", "Ha"),
   ("oxygen", "OIII"), ("oiii", "OIII"), ("o3", "OIII"), ("o", "OIII"),
   ("sulphur", "SII"), ("sulfur", "SII"), ("sii", "SII"), ("s2", "SII"),
   ("s", "SII"), ("r", "Red"), ("g", "Green"), ("b", "Blue"), ("l", "Luminance"),
   ("cls", "CLS")]

/-- `config.FILTER_KEYWORDS.values()`. -/
def FILTER_VALUES : List String := FILTER_KEYWORDS.map Prod.snd

/-- `config.CALIBRATION_KEYWORDS`. -/
def CALIBRATION_KEYWORDS : List String := ["darks", "bias", "flats", "calibration"]

/-- Modelled from the spec: `config.EDIT_INDICATORS` is referenced by
`_has_edits_in_folder` but not defined in the sources available under src/.
The spec (section 8) names `.tif` and `.psd` files as edit indicators and the
historical engine hard-codes the set with `.tiff` included. -/
def EDIT_INDICATORS : List String := [".tif", ".tiff", ".psd"]

/-- Modelled from the spec: `config.ALLOWED_FILE_PREFIXES` is referenced by
`_is_valid_file` but not defined in the sources available under src/.  The
spec (section 4.7 step 2) and the source comment name the prefixes
`Preview_`, `Light_`, `CRW_`, `IMG_`. -/
def ALLOWED_FILE_PREFIXES : List String := ["Preview_", "Light_", "CRW_", "IMG_"]

/-- Modelled from the spec: `config.SKIPPED_FILE_SUFFIXES` is referenced by
`_is_valid_file` but not defined in the sources available under src/.  The
source comment names the thumbnail marker `_thn.jpg`. -/
def SKIPPED_FILE_SUFFIXES : List String := ["_thn.jpg"]

/-- Modelled from the spec: `config.REQUIRED_METADATA_FIELDS` is referenced by
`_needs_header_extraction` but not defined in the sources available under
src/.  Per section 4.7 step 5 of the spec, astronomy (fits) files require
camera, gain, temperature and filter; consumer-photo (exif) files use a
possibly different set, here taken as the fields the EXIF reader supplies. -/
def REQUIRED_METADATA_FIELDS : List (String × List String) :=
  [("fits", ["camera", "gain", "temperature", "filter"]),
   ("exif", ["camera", "gain", "exposure", "temperature"])]

/-! ### The date folder pattern

`config.DATE_FOLDER_RE` is `^\d{4}[-_]?\d{2}[-_]?\d{2}` used with `.match`
(anchored at the start, arbitrary suffix allowed).  The pattern is
deterministic: the optional separator class is disjoint from digits. -/

/-- Optional `[-_]?` separator: greedily consume one separator character. -/
def dropSep : List Char → List Char
  | c :: cs => if c == '-' || c == '_' then cs else c :: cs
  | [] => []

/-- `config.DATE_FOLDER_RE.match(s)` as a Boolean. -/
def dateFolderMatchL (cs : List Char) : Bool :=
  match takeCount Char.isDigit 4 cs with
  | none => false
  | some (_, cs) =>
    match takeCount Char.isDigit 2 (dropSep cs) with
    | none => false
    | some (_, cs) =>
      match takeCount Char.isDigit 2 (dropSep cs) with
      | none => false
      | some _ => true

/-- `config.DATE_FOLDER_RE.match` on a string. -/
def dateFolderMatch (s : String) : Bool := dateFolderMatchL s.data

example : dateFolderMatch "2024-02-07 Backyard UVIR" = true := by decide
example : dateFolderMatch "20240207" = true := by decide
example : dateFolderMatch "2024_02_07 night" = true := by decide
example : dateFolderMatch "M42" = false := by decide
example : dateFolderMatch "202-0207" = false := by decide

/-! ## The strict composite filename pattern (config.FILE_REGEX)

`_(?P<exposure>[\d.]+)s_Bin(?P<bin>\d+)_(?P<camera>[^_]+)(?:_(?P<filter>[^_]+))?`
`_gain(?P<gain>\d+)_(?P<timestamp>\d{8}-\d{6})_(?P<temperature>-?[\d]+(?:\.[\d]+)?)C`
`_(?P<rotation>\d+)deg`, used with `.search` (leftmost match, no flags).

All quantified groups are followed by characters disjoint from their
character class, so greedy maximal munch is exact; the only choice point is
the optional filter group, which Python tries present-first. -/

/-- The eight named groups of a `config.FILE_REGEX` match. -/
structure FileGroups where
  exposure : String
  bin : String
  camera : String
  filter : Option String
  gain : String
  timestamp : String
  temperature : String
  rotation : String
deriving DecidableEq, Repr

/-- `_([\d.]+)s`: underscore, exposure group, literal s. -/
def pExposure : List Char → Option (List Char × List Char)
  | '_' :: cs =>
    let r := grab isExpChar cs
    if r.1.isEmpty then none
    else
      match r.2 with
      | 's' :: rest => some (r.1, rest)
      | _ => none
  | _ => none

/-- `\d+` greedy, at least one digit. -/
def pDigits (cs : List Char) : Option (List Char × List Char) :=
  let r := grab Char.isDigit cs
  if r.1.isEmpty then none else some r

/-- `[^_]+` greedy, at least one character. -/
def pSeg (cs : List Char) : Option (List Char × List Char) :=
  let r := grab (fun c => !(c == '_')) cs
  if r.1.isEmpty then none else some r

/-- `\d{8}-\d{6}`, capturing the whole timestamp. -/
def pTimestamp (cs : List Char) : Option (List Char × List Char) :=
  match takeCount Char.isDigit 8 cs with
  | none => none
  | some (d8, cs) =>
    match cs with
    | '-' :: cs =>
      match takeCount Char.isDigit 6 cs with
      | none => none
      | some (d6, cs) => some (d8 ++ '-' :: d6, cs)
    | _ => none

/-- `-?[\d]+(?:\.[\d]+)?` followed by a closing character accepted by `cOk`
(`C` exactly in the strict pattern, `C` or `c` in the tolerant fallback).
Captures the temperature group, consuming the closing character. -/
def pTempWith (cOk : Char → Bool) (cs : List Char) : Option (List Char × List Char) :=
  let sr : List Char × List Char :=
    match cs with
    | c :: rest => if c == '-' then ([c], rest) else ([], c :: rest)
    | [] => ([], [])
  let r := grab Char.isDigit sr.2
  if r.1.isEmpty then none
  else
    match r.2 with
    | c1 :: rest1 =>
      let withFrac : Option (List Char × List Char) :=
        if c1 == '.' then
          match rest1 with
          | c2 :: _ =>
            if c2.isDigit then
              let fr := grab Char.isDigit rest1
              match fr.2 with
              | c3 :: rest3 =>
                if cOk c3 then some (sr.1 ++ r.1 ++ '.' :: fr.1, rest3) else none
              | [] => none
            else none
          | [] => none
        else none
      match withFrac with
      | some x => some x
      | none => if cOk c1 then some (sr.1 ++ r.1, rest1) else none
    | [] => none

/-- `_(\d+)deg` with a literal accepted through `degOk` (exact in the strict
pattern, case-insensitive in the fallback). -/
def pRotWith (degOk : List Char → Option (List Char)) : List Char → Option (List Char × List Char)
  | '_' :: cs =>
    match pDigits cs with
    | none => none
    | some (d, cs) =>
      match degOk cs with
      | some rest => some (d, rest)
      | none => none
  | _ => none

/-- Tail of the strict pattern after the optional filter group:
`_gain(\d+)_(\d{8}-\d{6})_(temp)C_(\d+)deg`. -/
def fileRegexTail (e b cam : List Char) (fl : Option (List Char)) (cs : List Char) :
    Option FileGroups :=
  match stripLit ['_', 'g', 'a', 'i', 'n'] cs with
  | none => none
  | some cs =>
  match pDigits cs with
  | none => none
  | some (g, cs) =>
  match stripLit ['_'] cs with
  | none => none
  | some cs =>
  match pTimestamp cs with
  | none => none
  | some (ts, cs) =>
  match stripLit ['_'] cs with
  | none => none
  | some cs =>
  match pTempWith (· == 'C') cs with
  | none => none
  | some (tp, cs) =>
  match pRotWith (stripLit ['d', 'e', 'g']) cs with
  | none => none
  | some (r, _) =>
    some ⟨String.mk e, String.mk b, String.mk cam, fl.map String.mk, String.mk g,
          String.mk ts, String.mk tp, String.mk r⟩

/-- `config.FILE_REGEX` attempted at one position. -/
def fileRegexMatchAt (cs : List Char) : Option FileGroups :=
  match pExposure cs with
  | none => none
  | some (e, cs) =>
  match stripLit ['_', 'B', 'i', 'n'] cs with
  | none => none
  | some cs =>
  match pDigits cs with
  | none => none
  | some (b, cs) =>
  match stripLit ['_'] cs with
  | none => none
  | some cs =>
  match pSeg cs with
  | none => none
  | some (cam, cs) =>
    let withF : Option FileGroups :=
      match cs with
      | '_' :: cs2 =>
        match pSeg cs2 with
        | none => none
        | some (f, cs3) => fileRegexTail e b cam (some f) cs3
      | _ => none
    match withF with
    | some gs => some gs
    | none => fileRegexTail e b cam none cs

/-- `config.FILE_REGEX.search`: leftmost position wins. -/
def fileRegexSearchL : List Char → Option FileGroups
  | [] => none
  | c :: cs =>
    match fileRegexMatchAt (c :: cs) with
    | some gs => some gs
    | none => fileRegexSearchL cs

/-- `match.groupdict()`: all eight named groups, in pattern order, the
optional filter group as `None` when unmatched. -/
def groupdict (gs : FileGroups) : Meta :=
  [("exposure", some gs.exposure), ("bin", some gs.bin), ("camera", some gs.camera),
   ("filter", gs.filter), ("gain", some gs.gain), ("timestamp", some gs.timestamp),
   ("temperature", some gs.temperature), ("rotation", some gs.rotation)]

/-! ## Tolerant fallback searches (`_fallback_token_search`) -/

/-- Leftmost-position scan combinator shared by the independent fallback
searches: Python `re.search` tries each start position left to right. -/
def scanFirst (f : List Char → Option (List Char)) : List Char → Option (List Char)
  | [] => f []
  | c :: cs =>
    match f (c :: cs) with
    | some x => some x
    | none => scanFirst f cs

/-- `([\d.]+)s` with IGNORECASE, at one position. -/
def atExp (cs : List Char) : Option (List Char) :=
  let r := grab isExpChar cs
  if !r.1.isEmpty && (r.2.head? == some 's' || r.2.head? == some 'S') then some r.1
  else none

/-- `Bin(\d+)` with IGNORECASE, at one position. -/
def atBin (cs : List Char) : Option (List Char) :=
  match stripLitCI ['b', 'i', 'n'] cs with
  | some rest => (pDigits rest).map (fun r => r.1)
  | none => none

/-- `(?:gain|ISO)(\d+)` with IGNORECASE, at one position (alternation tries
`gain` first, then `ISO`). -/
def atGain (cs : List Char) : Option (List Char) :=
  match stripLitCI ['g', 'a', 'i', 'n'] cs with
  | some rest =>
    match (pDigits rest).map (fun r => r.1) with
    | some d => some d
    | none =>
      match stripLitCI ['i', 's', 'o'] cs with
      | some rest2 => (pDigits rest2).map (fun r => r.1)
      | none => none
  | none =>
    match stripLitCI ['i', 's', 'o'] cs with
    | some rest => (pDigits rest).map (fun r => r.1)
    | none => none

/-- `_(-?[\d]+(?:\.[\d]+)?)C` with IGNORECASE, at one position. -/
def atTemp : List Char → Option (List Char)
  | '_' :: cs => (pTempWith (fun c => c == 'C' || c == 'c') cs).map (fun r => r.1)
  | _ => none

/-- `_(\d+)deg` with IGNORECASE, at one position. -/
def atRot (cs : List Char) : Option (List Char) :=
  (pRotWith (stripLitCI ['d', 'e', 'g']) cs).map (fun r => r.1)

/-- `(\d{8}-\d{6})`, at one position. -/
def atTs (cs : List Char) : Option (List Char) :=
  (pTimestamp cs).map (fun r => r.1)

/-- Split on `[_\-]` and drop empty tokens, as in
`[t for t in re.split(r'[_\-]', file_name) if t]`. -/
def splitSepL : List Char → List (List Char)
  | [] => [[]]
  | c :: cs =>
    if c == '_' || c == '-' then [] :: splitSepL cs
    else
      match splitSepL cs with
      | t :: ts => (c :: t) :: ts
      | [] => [[c]]

/-- `re.match(r'Bin\d+', t, re.IGNORECASE)`: prefix match. -/
def isBinToken (t : List Char) : Bool :=
  match stripLitCI ['b', 'i', 'n'] t with
  | some (c :: _) => c.isDigit
  | _ => false

/-- `_fallback_token_search`: six independent tolerant searches in the
iteration order of the `patterns` dict, then camera-token recovery after the
first `BinN` token. -/
def fallback_token_search (file_name : String) : Meta :=
  let cs := file_name.data
  let m : Meta := []
  let m := match scanFirst atExp cs with
    | some v => metaSet m "exposure" (some (String.mk v))
    | none => m
  let m := match scanFirst atBin cs with
    | some v => metaSet m "bin" (some (String.mk v))
    | none => m
  let m := match scanFirst atGain cs with
    | some v => metaSet m "gain" (some (String.mk v))
    | none => m
  let m := match scanFirst atTemp cs with
    | some v => metaSet m "temperature" (some (String.mk v))
    | none => m
  let m := match scanFirst atRot cs with
    | some v => metaSet m "rotation" (some (String.mk v))
    | none => m
  let m := match scanFirst atTs cs with
    | some v => metaSet m "timestamp" (some (String.mk v))
    | none => m
  let tokens := (splitSepL cs).filter (fun t => !t.isEmpty)
  match tokens.findIdx? isBinToken with
  | some i =>
    match tokens.get? (i + 1) with
    | some cand =>
      if !cand.isEmpty && cand.all Char.isAlphanum then
        metaSet m "camera" (some (String.mk cand))
      else m
    | none => m
  | none => m

/-- `_get_metadata_from_filename`: strict pattern first, tolerant fallback
only on total failure of the strict pattern. -/
def get_metadata_from_filename (file_name : String) : Meta :=
  match fileRegexSearchL file_name.data with
  | some gs => groupdict gs
  | none => fallback_token_search file_name

example :
    get_metadata_from_filename
      "Light_Orion_180.0s_Bin1_294MC_L-Extreme_gain120_20250405-214232_-10C_90deg_001.fit" =
    [("exposure", some "180.0"), ("bin", some "1"), ("camera", some "294MC"),
     ("filter", some "L-Extreme"), ("gain", some "120"),
     ("timestamp", some "20250405-214232"), ("temperature", some "-10"),
     ("rotation", some "90")] := by decide

example :
    fileRegexSearchL (strData "Light_M42_123deg_67.0s_-273C_Bin1_PlayerOne_gain456_001.fits") =
    none := by decide

example :
    get_metadata_from_filename "Light_M42_123deg_67.0s_-273C_Bin1_PlayerOne_gain456_001.fits" =
    [("exposure", some "67.0"), ("bin", some "1"), ("gain", some "456"),
     ("temperature", some "-273"), ("rotation", some "123"),
     ("camera", some "PlayerOne")] := by decide

/-! ## Filter vocabulary (`config.identify_filter`)

`re.search(r'\b' + re.escape(key) + r'\b', folder_name, re.IGNORECASE)` for
each key in dict order.  A `\b` holds where the word-character status changes
(positions outside the string count as non-word).  Case-insensitive matching
preserves word-character status, so the boundary can be checked against the
key characters. -/

/-- One attempt of the word-bounded case-insensitive search: `prev` is the
character just before the current position (none at the string start). -/
def wbAt (key : List Char) (prev : Option Char) (cs : List Char) : Bool :=
  match stripLitCI key cs, key.head?, key.getLast? with
  | some rest, some kf, some kl =>
    ((prev.map isWordChar).getD false != isWordChar kf) &&
    ((rest.head?.map isWordChar).getD false != isWordChar kl)
  | _, _, _ => false

/-- Scan of the word-bounded case-insensitive search over all positions. -/
def wbGo (key : List Char) (prev : Option Char) : List Char → Bool
  | [] => false
  | c :: cs => wbAt key prev (c :: cs) || wbGo key (some c) cs

/-- `re.search(r'\b'+key+r'\b', s, re.IGNORECASE)` as a Boolean. -/
def wordBoundSearch (key s : String) : Bool := wbGo key.data none s.data

/-- `config.identify_filter`: first keyword of the vocabulary (in iteration
order) found word-bounded case-insensitively, else the sentinel. -/
def identify_filter (folder_name : String) : String :=
  match FILTER_KEYWORDS.find? (fun kv => wordBoundSearch kv.1 folder_name) with
  | some kv => kv.2
  | none => "Broadband/Unknown"

example : identify_filter "2024-02-07 Backyard UVIR" = "UV/IR Cut" := by decide
example : identify_filter "2024-02-07 Backyard" = "Broadband/Unknown" := by decide
example : identify_filter "Broadband/Unknown" = "Broadband/Unknown" := by decide
example : identify_filter "2024-02-07 Backyard L-Extreme" = "L-eXtreme" := by decide

/-! ## Metadata sanitizer (`_cleanup_parsed_metadata`) -/

/-- `re.match(r'^\d{8}$|^\d{8}-\d{6}$', camera)`: anchored alternation, so a
full eight-digit string or a full 8-6 timestamp. -/
def isTimestampPat (s : String) : Bool :=
  (s.data.length == 8 && s.data.all Char.isDigit) ||
    (match pTimestamp s.data with
     | some (_, rest) => rest.isEmpty
     | none => false)

/-- `re.match(r'^(gain|ISO)\d+', camera, re.IGNORECASE)`: prefix match. -/
def isGainIsoPat (s : String) : Bool :=
  (match stripLitCI ['g', 'a', 'i', 'n'] s.data with
   | some (c :: _) => c.isDigit
   | _ => false) ||
  (match stripLitCI ['i', 's', 'o'] s.data with
   | some (c :: _) => c.isDigit
   | _ => false)

/-- `camera.lower() in config.FILTER_KEYWORDS` (key membership). -/
def isFilterKeyword (s : String) : Bool :=
  FILTER_KEYWORDS.any (fun kv => kv.1 == lowerS s)

/-- `re.search(r'[_\-]' + re.escape(key) + r'[_\-]', file_name, IGNORECASE)`
at one position. -/
def sepAt (key : List Char) : List Char → Bool
  | c :: cs =>
    (c == '_' || c == '-') &&
      (match stripLitCI key cs with
       | some (d :: _) => d == '_' || d == '-'
       | _ => false)
  | [] => false

/-- Scan of the separator-delimited keyword search over all positions. -/
def sepDelimited (key : List Char) : List Char → Bool
  | [] => false
  | c :: cs => sepAt key (c :: cs) || sepDelimited key cs

/-- `^\d+$` on the gain value. -/
def isAllDigits (s : String) : Bool := !s.data.isEmpty && s.data.all Char.isDigit

/-- Rules 1 and 2 of `_cleanup_parsed_metadata`.  The `camera` variable is
read once at the top (as in the source), so rule 2 tests the original value
while moving the current (possibly already invalidated) value. -/
def cleanupCameraRules (meta : Meta) : Meta :=
  let camera0 := metaGet meta "camera"
  -- 1. invalidate camera matching timestamp or gain/ISO patterns
  let m := if truthy camera0 &&
      (match camera0 with
       | some c => isTimestampPat c || isGainIsoPat c
       | none => false) then metaSet meta "camera" none else meta
  -- 2. camera that is a known filter keyword moves to filter
  if truthy camera0 &&
      (match camera0 with
       | some c => isFilterKeyword c
       | none => false) then
    let m2 := if !truthy (metaGet m "filter") then
        metaSet m "filter" (metaGet m "camera") else m
    metaSet m2 "camera" none
  else m

/-- Rule 3 of `_cleanup_parsed_metadata`: look for a separator-delimited
filter keyword in the filename when the filter is still unset. -/
def cleanupFilterFromName (m : Meta) (file_name : String) : Meta :=
  if !truthy (metaGet m "filter") then
    match FILTER_KEYWORDS.find? (fun kv => sepDelimited kv.1.data file_name.data) with
    | some kv => metaSet m "filter" (some kv.2)
    | none => m
  else m

/-- Rule 4 of `_cleanup_parsed_metadata`: classify the session folder name
when the filter is unset or the sentinel. -/
def cleanupFilterFromSession (m : Meta) (session_info : String) : Meta :=
  if !truthy (metaGet m "filter") ||
      metaGet m "filter" == some "Broadband/Unknown" then
    metaSet m "filter" (some (identify_filter session_info))
  else m

/-- Rule 5 of `_cleanup_parsed_metadata`: re-classify a filter value that is
not one of the canonical vocabulary values. -/
def cleanupFilterCanonical (m : Meta) : Meta :=
  if truthy (metaGet m "filter") &&
      !(match metaGet m "filter" with
        | some v => FILTER_VALUES.contains v
        | none => false) then
    metaSet m "filter" (some (identify_filter ((metaGet m "filter").getD "")))
  else m

/-- Rule 6 of `_cleanup_parsed_metadata`: invalidate a non-numeric gain. -/
def cleanupGain (m : Meta) : Meta :=
  let gain := metaGet m "gain"
  if truthy gain &&
      !(match gain with
        | some g => isAllDigits g
        | none => false) then metaSet m "gain" none
  else m

/-- `_cleanup_parsed_metadata(meta, file_name, session_info)`: the six
sanitizer rules, in source order. -/
def cleanup_parsed_metadata (meta : Meta) (file_name session_info : String) : Meta :=
  cleanupGain (cleanupFilterCanonical
    (cleanupFilterFromSession
      (cleanupFilterFromName (cleanupCameraRules meta) file_name) session_info))

example :
    cleanup_parsed_metadata
      [("exposure", some "67.0"), ("bin", some "1"), ("gain", some "456"),
       ("temperature", some "-273"), ("rotation", some "123"),
       ("camera", some "PlayerOne")]
      "Light_M42_123deg_67.0s_-273C_Bin1_PlayerOne_gain456_001.fits"
      "2024-02-07 Backyard UVIR" =
    [("exposure", some "67.0"), ("bin", some "1"), ("gain", some "456"),
     ("temperature", some "-273"), ("rotation", some "123"),
     ("camera", some "PlayerOne"), ("filter", some "UV/IR Cut")] := by decide

/-! ## Session metadata cache (src/models.py, `_sync_session_data`) -/

/-- The `SessionMetadata` dataclass: five optional fields. -/
structure SessionMetadata where
  camera : Option String := none
  filter : Option String := none
  gain : Option String := none
  exposure : Option String := none
  temperature : Option String := none
deriving DecidableEq, Repr

/-- The five dataclass fields, in declaration order (`dataclasses.fields`). -/
inductive SField
  | camera | filter | gain | exposure | temperature
deriving DecidableEq, Repr

/-- The Python attribute name of a field. -/
def SField.fname : SField → String
  | .camera => "camera"
  | .filter => "filter"
  | .gain => "gain"
  | .exposure => "exposure"
  | .temperature => "temperature"

/-- `getattr(session, field_name)`. -/
def sGet (s : SessionMetadata) : SField → Option String
  | .camera => s.camera
  | .filter => s.filter
  | .gain => s.gain
  | .exposure => s.exposure
  | .temperature => s.temperature

/-- `setattr(session, field_name, v)`. -/
def sSet (s : SessionMetadata) : SField → Option String → SessionMetadata
  | .camera, v => { s with camera := v }
  | .filter, v => { s with filter := v }
  | .gain, v => { s with gain := v }
  | .exposure, v => { s with exposure := v }
  | .temperature, v => { s with temperature := v }

/-- `dataclasses.fields(session)` iteration order. -/
def sessionFieldList : List SField :=
  [.camera, .filter, .gain, .exposure, .temperature]

/-- One iteration of the `_sync_session_data` loop body for one field:
pull from the session when the file value is falsy (note this writes the
key even when the session value is `None`), then push the now-current value
into the session when truthy. -/
def syncStep (acc : Meta × SessionMetadata) (f : SField) : Meta × SessionMetadata :=
  let meta := if !truthy (metaGet acc.1 f.fname) then
      metaSet acc.1 f.fname (sGet acc.2 f)
    else acc.1
  let session := if truthy (metaGet meta f.fname) then
      sSet acc.2 f (metaGet meta f.fname)
    else acc.2
  (meta, session)

/-- `_sync_session_data(meta, session)`, returning the updated dict and
session (the source mutates both in place). -/
def sync_session_data (meta : Meta) (session : SessionMetadata) :
    Meta × SessionMetadata :=
  sessionFieldList.foldl syncStep (meta, session)

example :
    sync_session_data [("camera", some "CamA")] {} =
    ([("camera", some "CamA"), ("filter", none), ("gain", none),
      ("exposure", none), ("temperature", none)],
     { camera := some "CamA" }) := by decide

/-! ## Paths

Filesystem paths are lists of path segments (`pathlib.Path.parts`), with
`parent` as `dropLast`; the all-segments-consumed path `[]` plays the role of
the filesystem root, which is its own parent.  `str(path)` joins segments
with a slash; dict keys formed from `str(...)` are modelled by the segment
lists themselves (the join is injective on the paths of one scan). -/

abbrev PathT := List String

/-- Whether `a` is an initial segment (ancestor-or-self chain) of `b`. -/
def leadsP : PathT → PathT → Bool
  | [], _ => true
  | _ :: _, [] => false
  | a :: as, b :: bs => a == b && leadsP as bs

/-- Segments joined with a slash (`str(path)` on a relative posix path). -/
def joinSegs : List String → List Char
  | [] => []
  | [s] => s.data
  | s :: rest => s.data ++ '/' :: joinSegs rest

/-- `str(path)`. -/
def pathStr (p : PathT) : String := String.mk (joinSegs p)

/-- `path.parent.name` (empty for the filesystem root and `.`). -/
def parentName (p : PathT) : String := (p.dropLast.getLast?).getD ""

/-- `pathlib` suffix of a file name: from the last dot, provided the dot is
neither the first nor the last character. -/
def fileSuffix (name : String) : String :=
  let cs := name.data
  match cs.reverse.findIdx? (fun c => c == '.') with
  | some j =>
    let i := cs.length - 1 - j
    if 0 < i && i + 1 < cs.length then String.mk (cs.drop i) else ""
  | none => ""

example : fileSuffix "Light_001.fits" = ".fits" := by decide
example : fileSuffix "archive.tar.gz" = ".gz" := by decide
example : fileSuffix "noext" = "" := by decide

/-! ## Path decomposer (`_get_metadata_from_path`) -/

/-- The `for i in range(num_parts - 2, -1, -1)` loop: scan indices from `i`
down to 0 and return the first whose segment matches the date pattern. -/
def scanDown (rel : List String) : Nat → Option Nat
  | 0 => if dateFolderMatch ((rel.get? 0).getD "") then some 0 else none
  | i + 1 =>
    if dateFolderMatch ((rel.get? (i + 1)).getD "") then some (i + 1)
    else scanDown rel i

/-- `_get_metadata_from_path(path, root)`: object, telescope, session.  The
`try` branch runs when `relative_to` succeeds, i.e. when `root` is an initial
segment of `path`; otherwise the naive parent-chain fallback runs. -/
def get_metadata_from_path (path root : PathT) : String × String × String :=
  if leadsP root path then
    let rel := path.drop root.length
    let n := rel.length
    let obj_name := if n > 1 then (rel.get? 0).getD "" else ""
    let found := if n ≥ 2 then scanDown rel (n - 2) else none
    let telescope := match found with
      | some i => if i > 1 then (rel.get? (i - 1)).getD "" else "missing info"
      | none => "missing info"
    let si := match found with
      | some i => (rel.get? i).getD ""
      | none => ""
    let si := if si == "" then parentName path else si
    (obj_name, telescope, si)
  else
    ((path.dropLast.dropLast.dropLast.getLast?).getD "",
     (path.dropLast.dropLast.getLast?).getD "",
     parentName path)

example :
    get_metadata_from_path
      ["M42", "2000mm Telescope", "2024-02-07 Backyard UVIR",
       "Light_M42_123deg_67.0s_-273C_Bin1_PlayerOne_gain456_001.fits"] [] =
    ("M42", "2000mm Telescope", "2024-02-07 Backyard UVIR") := by decide

/-! ## Validation (`_is_valid_file`) -/

/-- `_is_valid_file(path, session_info)`. -/
def is_valid_file (path : PathT) (session_info : String) : Bool :=
  let file_name := (path.getLast?).getD ""
  let parent_name := strTrim session_info
  if !dateFolderMatch parent_name then false
  else if !(ALLOWED_FILE_PREFIXES.any (fun p => strStarts file_name p)) ||
      SKIPPED_FILE_SUFFIXES.any (fun p => strEnds file_name p) then false
  else if CALIBRATION_KEYWORDS.any
      (fun k => strContains k (lowerS (pathStr path))) then false
  else true

/-! ## Gatekeeper (`_needs_header_extraction`) -/

/-- `_needs_header_extraction(ext, meta)`: some required field of the
extension category is falsy in `meta`. -/
def needs_header_extraction (ext : String) (meta : Meta) : Bool :=
  let required := match FILE_TYPES.lookup ext with
    | some t => (REQUIRED_METADATA_FIELDS.lookup t).getD []
    | none => []
  required.any (fun f => !truthy (metaGet meta f))

/-! ## Edit-taint tracker (`_has_edits_in_folder`, `_bubble_up_edit_status`) -/

/-- `_has_edits_in_folder(files, current_dir)`: some file carries an edit
indicator extension or the substring `stack`, and the folder path holds no
calibration keyword. -/
def has_edits_in_folder (files : List String) (current_dir : String) : Bool :=
  files.any (fun f =>
    let fl := lowerS f
    (EDIT_INDICATORS.any (fun ext => strEnds fl ext) || strContains "stack" fl) &&
      !(CALIBRATION_KEYWORDS.any (fun k => strContains k (lowerS current_dir))))

/-- `_bubble_up_edit_status(start_path, root_limit)`: mark the folder and
walk up through parents, stopping at (and excluding) the scan root or the
self-parent filesystem root.  The taint map is a list of marked paths. -/
def bubble_up_edit_status (p root : PathT) (cache : List PathT) : List PathT :=
  if h : p = root ∨ p = p.dropLast then cache
  else bubble_up_edit_status p.dropLast root (p :: cache)
termination_by p.length
decreasing_by
  simp only [List.length_dropLast]
  have hne : p ≠ [] := by
    intro hnil
    exact h (Or.inr (by simp [hnil]))
  have hpos : 0 < p.length := List.length_pos.mpr hne
  omega

/-- Truthy lookup in the taint map (`folder_edit_cache.get(key)`). -/
def taintLookup (cache : List PathT) (p : PathT) : Bool := cache.contains p

/-! ## Result rows (`_build_result_row`) -/

/-- One output record.  Fields hold `Option String` where the source can
place `None` in the row dict. -/
structure Row where
  object : String
  filter : Option String
  camera : Option String
  telescope : String
  exposure : Option String
  bin : Option String
  gain : Option String
  temp : Option String
  rotation : Option String
  timestamp : Option String
  sessionFolder : String
  editsDetected : String
  path : String
deriving DecidableEq, Repr

/-- `_build_result_row(path, meta, obj_name, telescope, session_info)`. -/
def build_result_row (path : PathT) (meta : Meta)
    (obj_name telescope session_info : String) (editCache : List PathT) : Row :=
  let session_path := path.dropLast
  let object_path := session_path.dropLast
  let has_edits :=
    if taintLookup editCache session_path || taintLookup editCache object_path
    then "Yes" else "No"
  { object := if obj_name == "" then "Unknown" else obj_name
    filter := metaGetD meta "filter" (some "Broadband/Unknown")
    camera := metaGetD meta "camera" (some "")
    telescope := if telescope == "" then "" else telescope
    exposure := metaGetD meta "exposure" (some "0")
    bin := metaGetD meta "bin" (some "1")
    gain := metaGetD meta "gain" (some "")
    temp := metaGetD meta "temperature" (some "")
    rotation := metaGetD meta "rotation" (some "")
    timestamp := metaGetD meta "timestamp" (some "")
    sessionFolder := if session_info == "" then "" else session_info
    editsDetected := has_edits
    path := pathStr path }

/-! ## Per-file pipeline (`_extract_metadata`) -/

/-- The per-folder session cache (`self.session_cache`), keyed by the
containing folder of the file. -/
abbrev SessionCache := List (PathT × SessionMetadata)

/-- Dict lookup in the session cache. -/
def scacheGet (c : SessionCache) (k : PathT) : Option SessionMetadata :=
  c.lookup k

/-- Dict store in the session cache. -/
def scacheSet : SessionCache → PathT → SessionMetadata → SessionCache
  | [], k, v => [(k, v)]
  | (k0, v0) :: rest, k, v =>
    if k0 == k then (k, v) :: rest else (k0, v0) :: scacheSet rest k v

/-- `_extract_metadata(path, root)`.  The header readers perform file io, so
their output for this file is supplied as the `headerMeta` capability input
(spec section 6); it is consulted only when the gatekeeper fires.  Returns
the optional row and the updated session cache (the source mutates the
session object in place). -/
def extract_metadata (headerMeta : Meta) (path root : PathT)
    (scache : SessionCache) (editCache : List PathT) : Option Row × SessionCache :=
  let file_name := (path.getLast?).getD ""
  let session_folder := path.dropLast
  let scache := if (scacheGet scache session_folder).isSome then scache
    else scacheSet scache session_folder {}
  let session := (scacheGet scache session_folder).getD {}
  let pm := get_metadata_from_path path root
  let obj_name := pm.1
  let telescope := pm.2.1
  let session_info := pm.2.2
  if !is_valid_file path session_info then (none, scache)
  else
    let meta := cleanup_parsed_metadata (get_metadata_from_filename file_name)
      file_name session_info
    let ms := sync_session_data meta session
    let ext := lowerS (fileSuffix file_name)
    let ms2 :=
      if (FILE_TYPES.lookup ext).isSome && needs_header_extraction ext ms.1 then
        let es := sync_session_data
          (cleanup_parsed_metadata headerMeta file_name session_info) ms.2
        (metaUpdateTruthy ms.1 es.1, es.2)
      else ms
    let ms3 := sync_session_data ms2.1 ms2.2
    let scache := scacheSet scache session_folder ms3.2
    if ms3.1.isEmpty then (none, scache)
    else (some (build_result_row path ms3.1 obj_name telescope session_info editCache),
          scache)

/-! ## The scan (`scan_folder`) -/

/-- One `os.walk` entry: a directory and the files directly inside it. -/
structure WalkEntry where
  dir : PathT
  files : List String
deriving Repr

/-- The taint work done for one walk entry. -/
def taintStep (root : PathT) (cache : List PathT) (e : WalkEntry) : List PathT :=
  if has_edits_in_folder e.files (pathStr e.dir) then
    bubble_up_edit_status e.dir root cache
  else cache

/-- The image files collected from one walk entry (extension in the
file-type map, lowercased). -/
def candidatesOf (e : WalkEntry) : List PathT :=
  (e.files.filter (fun f => FILE_TYPES.any (fun kv => kv.1 == lowerS (fileSuffix f)))).map
    (fun f => e.dir ++ [f])

/-- The edit-taint map at the end of an uninterrupted walk. -/
def taintAfter (walk : List WalkEntry) (root : PathT) : List PathT :=
  walk.foldl (taintStep root) []

/-- The walk loop of `scan_folder`: `stop k` is the value of the
`stop_requested` flag as observed at the k-th checkpoint of the scan.  Returns
`none` when the loop returned `[]` early, else the checkpoint counter, the
taint map and the candidate list. -/
def walkPhase (stop : Nat → Bool) (root : PathT) :
    List WalkEntry → Nat → List PathT → List PathT →
    Option (Nat × List PathT × List PathT)
  | [], k, cache, files => some (k, cache, files)
  | e :: rest, k, cache, files =>
    if stop k then none
    else walkPhase stop root rest (k + 1) (taintStep root cache e)
      (files ++ candidatesOf e)

/-- The extraction loop of `scan_folder`, with its per-file stop checkpoint.
`extractor` supplies the header-reader output for each file. -/
def extractLoop (stop : Nat → Bool) (extractor : PathT → Meta) (root : PathT)
    (editCache : List PathT) :
    List PathT → Nat → SessionCache → List Row → List Row
  | [], _, _, rows => rows
  | p :: rest, k, scache, rows =>
    if stop k then []
    else
      let rs := extract_metadata (extractor p) p root scache editCache
      extractLoop stop extractor root editCache rest (k + 1) rs.2
        (match rs.1 with
         | some row => rows ++ [row]
         | none => rows)

/-- `scan_folder(root_path)`. -/
def scan_folder (stop : Nat → Bool) (extractor : PathT → Meta)
    (walk : List WalkEntry) (root : PathT) : List Row :=
  match walkPhase stop root walk 0 [] [] with
  | none => []
  | some (k, editCache, fileList) =>
    extractLoop stop extractor root editCache fileList k [] []

example :
    (extract_metadata [] ["T", "M105 - triplet in Leo", "2024-02-07 Backyard UVIR",
        "Light_M105_123deg_67.0s_-273C_Bin1_PlayerOne_gain456_001.fits"] ["T"] [] []).1 =
    some
      { object := "M105 - triplet in Leo", filter := some "UV/IR Cut",
        camera := some "PlayerOne", telescope := "missing info",
        exposure := some "67.0", bin := some "1", gain := some "456",
        temp := some "-273", rotation := some "123", timestamp := some "",
        sessionFolder := "2024-02-07 Backyard UVIR", editsDetected := "No",
        path := "T/M105 - triplet in Leo/2024-02-07 Backyard UVIR/Light_M105_123deg_67.0s_-273C_Bin1_PlayerOne_gain456_001.fits" } := by
  decide

/-! ## Dictionary lemmas -/

theorem lookup_metaSet_self (m : Meta) (k : String) (v : Option String) :
    (metaSet m k v).lookup k = some v := by
  induction m with
  | nil => simp [metaSet, List.lookup]
  | cons kv rest ih =>
    rcases kv with ⟨k0, v0⟩
    by_cases h : k0 = k
    · subst h; simp [metaSet, List.lookup]
    · have hb1 : (k0 == k) = false := beq_eq_false_iff_ne.mpr h
      have hb2 : (k == k0) = false := beq_eq_false_iff_ne.mpr (Ne.symm h)
      simp [metaSet, List.lookup, hb1, hb2, ih]

theorem lookup_metaSet_ne (m : Meta) (k k2 : String) (v : Option String)
    (h : k2 ≠ k) : (metaSet m k v).lookup k2 = m.lookup k2 := by
  induction m with
  | nil => simp [metaSet, List.lookup, beq_eq_false_iff_ne.mpr h]
  | cons kv rest ih =>
    rcases kv with ⟨k0, v0⟩
    by_cases h0 : k0 = k
    · subst h0
      simp [metaSet, List.lookup, beq_eq_false_iff_ne.mpr h]
    · have hb : (k0 == k) = false := beq_eq_false_iff_ne.mpr h0
      cases hx : k2 == k0 <;> simp [metaSet, List.lookup, hb, hx, ih]

theorem metaGet_metaSet_self (m : Meta) (k : String) (v : Option String) :
    metaGet (metaSet m k v) k = v := by
  simp [metaGet, lookup_metaSet_self]

theorem metaGet_metaSet_ne (m : Meta) (k k2 : String) (v : Option String)
    (h : k2 ≠ k) : metaGet (metaSet m k v) k2 = metaGet m k2 := by
  simp [metaGet, lookup_metaSet_ne m k k2 v h]

theorem metaSet_ne_nil (m : Meta) (k : String) (v : Option String) :
    metaSet m k v ≠ [] := by
  cases m with
  | nil => simp [metaSet]
  | cons kv rest =>
    rcases kv with ⟨k0, v0⟩
    by_cases h : (k0 == k) = true <;> simp [metaSet, h]

/-! ## Session field lemmas -/

theorem sGet_sSet_self (s : SessionMetadata) (f : SField) (v : Option String) :
    sGet (sSet s f v) f = v := by cases f <;> rfl

theorem sGet_sSet_ne (s : SessionMetadata) (f g : SField) (v : Option String)
    (h : f ≠ g) : sGet (sSet s g v) f = sGet s f := by
  cases f <;> cases g <;> first | rfl | exact absurd rfl h

theorem SField.fname_ne {f g : SField} (h : f ≠ g) : f.fname ≠ g.fname := by
  cases f <;> cases g <;> first | exact absurd rfl h | decide

/-! ## Characterisation of `_sync_session_data` -/

theorem syncStep_fst_get_self (a : Meta × SessionMetadata) (f : SField) :
    metaGet (syncStep a f).1 f.fname =
      if truthy (metaGet a.1 f.fname) then metaGet a.1 f.fname else sGet a.2 f := by
  by_cases h : truthy (metaGet a.1 f.fname) = true
  · simp [syncStep, h]
  · simp only [Bool.not_eq_true] at h
    simp [syncStep, h, metaGet_metaSet_self]

theorem syncStep_snd_get_self (a : Meta × SessionMetadata) (f : SField) :
    sGet (syncStep a f).2 f =
      if truthy (metaGet a.1 f.fname) then metaGet a.1 f.fname else sGet a.2 f := by
  by_cases h : truthy (metaGet a.1 f.fname) = true
  · simp [syncStep, h, sGet_sSet_self]
  · simp only [Bool.not_eq_true] at h
    by_cases h2 : truthy (sGet a.2 f) = true
    · simp [syncStep, h, metaGet_metaSet_self, h2, sGet_sSet_self]
    · simp only [Bool.not_eq_true] at h2
      simp [syncStep, h, metaGet_metaSet_self, h2]

theorem syncStep_fst_get_ne (a : Meta × SessionMetadata) (g : SField)
    (k : String) (h : k ≠ g.fname) :
    metaGet (syncStep a g).1 k = metaGet a.1 k := by
  by_cases hc : truthy (metaGet a.1 g.fname) = true
  · simp [syncStep, hc]
  · simp only [Bool.not_eq_true] at hc
    simp [syncStep, hc, metaGet_metaSet_ne _ _ _ _ h]

theorem syncStep_snd_get_ne (a : Meta × SessionMetadata) (g f : SField)
    (h : f ≠ g) : sGet (syncStep a g).2 f = sGet a.2 f := by
  simp only [syncStep]
  split <;> split
  · exact sGet_sSet_ne _ _ _ _ h
  · rfl
  · exact sGet_sSet_ne _ _ _ _ h
  · rfl

theorem foldl_sync_ne (fs : List SField) (f : SField) (hf : f ∉ fs) :
    ∀ a : Meta × SessionMetadata,
      metaGet (fs.foldl syncStep a).1 f.fname = metaGet a.1 f.fname ∧
      sGet (fs.foldl syncStep a).2 f = sGet a.2 f := by
  induction fs with
  | nil => intro a; exact ⟨rfl, rfl⟩
  | cons g gs ih =>
    intro a
    have hfg : f ≠ g := fun h => hf (h ▸ List.mem_cons_self g gs)
    have hfgs : f ∉ gs := fun h => hf (List.mem_cons_of_mem g h)
    have hrec := ih hfgs (syncStep a g)
    refine ⟨?_, ?_⟩
    · rw [List.foldl_cons, hrec.1, syncStep_fst_get_ne _ _ _ (SField.fname_ne hfg)]
    · rw [List.foldl_cons, hrec.2, syncStep_snd_get_ne _ _ _ hfg]

theorem sync_char (m : Meta) (s : SessionMetadata) (f : SField) :
    metaGet (sync_session_data m s).1 f.fname =
      (if truthy (metaGet m f.fname) then metaGet m f.fname else sGet s f) ∧
    sGet (sync_session_data m s).2 f =
      (if truthy (metaGet m f.fname) then metaGet m f.fname else sGet s f) := by
  cases f
  case camera =>
    have hpost := foldl_sync_ne [.filter, .gain, .exposure, .temperature] .camera
      (by decide) (syncStep (m, s) .camera)
    have e1 : sync_session_data m s =
        [SField.filter, .gain, .exposure, .temperature].foldl syncStep
          (syncStep (m, s) .camera) := rfl
    rw [e1, hpost.1, hpost.2, syncStep_fst_get_self, syncStep_snd_get_self]
    exact ⟨rfl, rfl⟩
  case filter =>
    have hpre := foldl_sync_ne [.camera] .filter (by decide) (m, s)
    have hpost := foldl_sync_ne [.gain, .exposure, .temperature] .filter
      (by decide) (syncStep ([SField.camera].foldl syncStep (m, s)) .filter)
    have e1 : sync_session_data m s =
        [SField.gain, .exposure, .temperature].foldl syncStep
          (syncStep ([SField.camera].foldl syncStep (m, s)) .filter) := rfl
    rw [e1, hpost.1, hpost.2, syncStep_fst_get_self, syncStep_snd_get_self,
      hpre.1, hpre.2]
    exact ⟨rfl, rfl⟩
  case gain =>
    have hpre := foldl_sync_ne [.camera, .filter] .gain (by decide) (m, s)
    have hpost := foldl_sync_ne [.exposure, .temperature] .gain (by decide)
      (syncStep ([SField.camera, .filter].foldl syncStep (m, s)) .gain)
    have e1 : sync_session_data m s =
        [SField.exposure, .temperature].foldl syncStep
          (syncStep ([SField.camera, .filter].foldl syncStep (m, s)) .gain) := rfl
    rw [e1, hpost.1, hpost.2, syncStep_fst_get_self, syncStep_snd_get_self,
      hpre.1, hpre.2]
    exact ⟨rfl, rfl⟩
  case exposure =>
    have hpre := foldl_sync_ne [.camera, .filter, .gain] .exposure (by decide) (m, s)
    have hpost := foldl_sync_ne [.temperature] .exposure (by decide)
      (syncStep ([SField.camera, .filter, .gain].foldl syncStep (m, s)) .exposure)
    have e1 : sync_session_data m s =
        [SField.temperature].foldl syncStep
          (syncStep ([SField.camera, .filter, .gain].foldl syncStep (m, s)) .exposure) := rfl
    rw [e1, hpost.1, hpost.2, syncStep_fst_get_self, syncStep_snd_get_self,
      hpre.1, hpre.2]
    exact ⟨rfl, rfl⟩
  case temperature =>
    have hpre := foldl_sync_ne [.camera, .filter, .gain, .exposure] .temperature
      (by decide) (m, s)
    have e1 : sync_session_data m s =
        syncStep ([SField.camera, .filter, .gain, .exposure].foldl syncStep (m, s))
          .temperature := rfl
    rw [e1, syncStep_fst_get_self, syncStep_snd_get_self, hpre.1, hpre.2]
    exact ⟨rfl, rfl⟩

theorem sync_session_keeps (m : Meta) (s : SessionMetadata) (f : SField)
    (h : truthy (sGet s f) = true) :
    truthy (sGet (sync_session_data m s).2 f) = true := by
  rw [(sync_char m s f).2]
  by_cases hc : truthy (metaGet m f.fname) = true
  · simp [hc]
  · simp only [Bool.not_eq_true] at hc
    simp [hc, h]

/-- C3: the per-folder session cache is monotone.  One sync writes the file
value into the cache exactly when that value is non-empty (otherwise the
cached value survives), pulls the cached value into the file metadata exactly
when the file value is falsy, and a cache field that is truthy stays truthy
across any further sequence of syncs performed during the scan. -/
theorem c3_session_cache_monotone :
    ∀ (m : Meta) (s : SessionMetadata) (f : SField),
      (sGet (sync_session_data m s).2 f =
        (if truthy (metaGet m f.fname) then metaGet m f.fname else sGet s f)) ∧
      (metaGet (sync_session_data m s).1 f.fname =
        (if truthy (metaGet m f.fname) then metaGet m f.fname else sGet s f)) ∧
      (truthy (sGet s f) = true →
        truthy (sGet (sync_session_data m s).2 f) = true) ∧
      (∀ ms : List Meta, truthy (sGet s f) = true →
        truthy (sGet (ms.foldl (fun acc m2 => (sync_session_data m2 acc).2) s) f)
          = true) := by
  intro m s f
  refine ⟨(sync_char m s f).2, (sync_char m s f).1, sync_session_keeps m s f, ?_⟩
  intro ms
  induction ms generalizing s with
  | nil => intro h; exact h
  | cons m2 rest ih =>
    intro h
    exact ih _ (sync_session_keeps m2 s f h)

/-- Closed witness for C3 at a concrete cache state and sync sequence. -/
theorem c3_session_cache_monotone_witness :
    truthy (sGet { camera := some "294MC" : SessionMetadata } .camera) = true ∧
    truthy (sGet (([[("camera", some "")], [("gain", some "120")]] : List Meta).foldl
      (fun acc m2 => (sync_session_data m2 acc).2)
      { camera := some "294MC" : SessionMetadata }) .camera) = true :=
  ⟨by decide,
   (c3_session_cache_monotone [] { camera := some "294MC" } .camera).2.2.2
     [[("camera", some "")], [("gain", some "120")]] (by decide)⟩

/-! ## Claim C9: filter classification -/

theorem wbGo_h_false (cs : List Char) (prev : Option Char)
    (hall : ∀ c ∈ cs, isWordChar c = true)
    (hprev : ∀ c, prev = some c → isWordChar c = true)
    (hsingle : prev = none → ∀ c : Char, c.toLower = 'h' → cs ≠ [c]) :
    wbGo ['h'] prev cs = false := by
  induction cs generalizing prev with
  | nil => rfl
  | cons c rest ih =>
    have hc : isWordChar c = true := hall c (List.mem_cons_self _ _)
    have hrest : ∀ x ∈ rest, isWordChar x = true :=
      fun x hx => hall x (List.mem_cons_of_mem _ hx)
    have hkey : isWordChar 'h' = true := by decide
    have hat : wbAt ['h'] prev (c :: rest) = false := by
      by_cases hch : c.toLower = 'h'
      · have hstrip : stripLitCI ['h'] (c :: rest) = some rest := by
          simp [stripLitCI, hch]
        cases prev with
        | some c2 =>
          have hw2 : isWordChar c2 = true := hprev c2 rfl
          simp [wbAt, hstrip, hw2, hkey]
        | none =>
          cases rest with
          | nil => exact absurd rfl (hsingle rfl c hch)
          | cons x xs =>
            have hwx : isWordChar x = true := hrest x (List.mem_cons_self _ _)
            simp [wbAt, hstrip, hwx, hkey]
      · have hstrip : stripLitCI ['h'] (c :: rest) = none := by
          simp [stripLitCI, hch]
        simp [wbAt, hstrip]
    rw [wbGo, hat]
    simp only [Bool.false_or]
    exact ih (some c) hrest (fun c2 h2 => by cases h2; exact hc)
      (fun hcontra => nomatch hcontra)

/-- C9: `identify_filter` performs case-insensitive whole-word
classification: the listed vocabulary examples resolve to their canonical
names, a string without any word-bounded keyword resolves to the sentinel
(`randomtext` and `backyard` in particular, so the single-letter keyword `h`
does not fire inside a longer token), the sentinel is returned whenever no
keyword matches, and the keyword `h` can never match inside a string that is
a single alphanumeric token other than `h` itself. -/
theorem c9_classify :
    identify_filter "Halpha" = "Ha" ∧
    identify_filter "oiii" = "OIII" ∧
    identify_filter "sii" = "SII" ∧
    identify_filter "randomtext" = "Broadband/Unknown" ∧
    identify_filter "backyard" = "Broadband/Unknown" ∧
    (∀ s : String, (∀ kv ∈ FILTER_KEYWORDS, wordBoundSearch kv.1 s = false) →
      identify_filter s = "Broadband/Unknown") ∧
    (∀ cs : List Char, (∀ c ∈ cs, isWordChar c = true) →
      (∀ c : Char, c.toLower = 'h' → cs ≠ [c]) →
      wordBoundSearch "h" (String.mk cs) = false) := by
  refine ⟨by decide, by decide, by decide, by decide, by decide, ?_, ?_⟩
  · intro s h
    have hnone : FILTER_KEYWORDS.find? (fun kv => wordBoundSearch kv.1 s) = none :=
      List.find?_eq_none.mpr (fun kv hkv => by simp [h kv hkv])
    unfold identify_filter
    rw [hnone]
  · intro cs hall hsingle
    exact wbGo_h_false cs none hall (fun c h2 => nomatch h2)
      (fun _ => hsingle)

/-- Closed witness for C9 at concrete inputs. -/
theorem c9_classify_witness :
    identify_filter "zzz 123" = "Broadband/Unknown" ∧
    wordBoundSearch "h" (String.mk ['b', 'a', 'c', 'k', 'y', 'a', 'r', 'd']) = false :=
  ⟨c9_classify.2.2.2.2.2.1 "zzz 123" (by decide),
   c9_classify.2.2.2.2.2.2 ['b', 'a', 'c', 'k', 'y', 'a', 'r', 'd'] (by decide)
     (fun c _ heq => by
       have hlen := congrArg List.length heq
       simp at hlen)⟩

/-! ## Claim C6: record field defaults -/

/-- C6 counterexample: a validated candidate whose exposure is found nowhere
(filename, header and cache all lack it).  The final sync writes the key
`exposure` into the working dict with value `None`, so `meta.get('exposure',
'0')` returns `None`, not the claimed default `"0"`; the `temperature`
(`Temp`) column likewise carries `None` instead of the claimed `""`. -/
theorem c6_counterexample :
    ((extract_metadata [] ["M42", "2024-02-07 Backyard",
        "Light_M42_Bin1_CamA_gain456_001.fits"] [] [] []).1.map Row.exposure)
      = some none ∧
    ((extract_metadata [] ["M42", "2024-02-07 Backyard",
        "Light_M42_Bin1_CamA_gain456_001.fits"] [] [] []).1.map Row.temp)
      = some none ∧
    (some (none : Option String) ≠ some (some "0")) ∧
    (some (none : Option String) ≠ some (some "")) := by
  refine ⟨by decide, by decide, by decide, by decide⟩

/-- C6 amended: in `_build_result_row` each default applies exactly when the
key is absent from the working metadata dict; a key present with any stored
value (including `None`, which the session sync inserts for fields the
session lacks) is passed through unchanged.  The Object default applies
whenever the object name is empty, as claimed. -/
theorem c6_defaults_amended :
    ∀ (path : PathT) (meta : Meta) (obj tel si : String) (cache : List PathT),
      (obj = "" → (build_result_row path meta obj tel si cache).object = "Unknown") ∧
      (obj ≠ "" → (build_result_row path meta obj tel si cache).object = obj) ∧
      (meta.lookup "filter" = none →
        (build_result_row path meta obj tel si cache).filter = some "Broadband/Unknown") ∧
      (∀ v, meta.lookup "filter" = some v →
        (build_result_row path meta obj tel si cache).filter = v) ∧
      (meta.lookup "bin" = none →
        (build_result_row path meta obj tel si cache).bin = some "1") ∧
      (∀ v, meta.lookup "bin" = some v →
        (build_result_row path meta obj tel si cache).bin = v) ∧
      (meta.lookup "exposure" = none →
        (build_result_row path meta obj tel si cache).exposure = some "0") ∧
      (∀ v, meta.lookup "exposure" = some v →
        (build_result_row path meta obj tel si cache).exposure = v) ∧
      (meta.lookup "camera" = none →
        (build_result_row path meta obj tel si cache).camera = some "") ∧
      (meta.lookup "gain" = none →
        (build_result_row path meta obj tel si cache).gain = some "") ∧
      (meta.lookup "temperature" = none →
        (build_result_row path meta obj tel si cache).temp = some "") ∧
      (meta.lookup "rotation" = none →
        (build_result_row path meta obj tel si cache).rotation = some "") ∧
      (meta.lookup "timestamp" = none →
        (build_result_row path meta obj tel si cache).timestamp = some "") ∧
      (∀ v, meta.lookup "camera" = some v →
        (build_result_row path meta obj tel si cache).camera = v) ∧
      (∀ v, meta.lookup "temperature" = some v →
        (build_result_row path meta obj tel si cache).temp = v) := by
  intro path meta obj tel si cache
  refine ⟨?_, ?_, ?_, ?_, ?_, ?_, ?_, ?_, ?_, ?_, ?_, ?_, ?_, ?_, ?_⟩ <;>
    first
    | (intro h; simp [build_result_row, metaGetD, h])
    | (intro v h; simp [build_result_row, metaGetD, h])

/-- Closed witness for C6 amended at concrete inputs. -/
theorem c6_defaults_amended_witness :
    (build_result_row [] [("filter", some "Ha")] "" "t" "s" []).object = "Unknown" ∧
    (build_result_row [] [("filter", some "Ha")] "" "t" "s" []).filter = some "Ha" ∧
    (build_result_row [] [("filter", some "Ha")] "" "t" "s" []).exposure = some "0" :=
  ⟨(c6_defaults_amended [] [("filter", some "Ha")] "" "t" "s" []).1 rfl,
   (c6_defaults_amended [] [("filter", some "Ha")] "" "t" "s" []).2.2.2.1
     (some "Ha") rfl,
   (c6_defaults_amended [] [("filter", some "Ha")] "" "t" "s" []).2.2.2.2.2.2.1 rfl⟩

/-! ## Claim C2: path decomposition -/

theorem dateMatch_ne_empty {s : String} (h : dateFolderMatch s = true) : s ≠ "" := by
  intro he
  rw [he] at h
  exact absurd h (by decide)

theorem scanDown_some_spec (rel : List String) :
    ∀ i k, scanDown rel i = some k →
      k ≤ i ∧ dateFolderMatch ((rel.get? k).getD "") = true ∧
        ∀ j, k < j → j ≤ i → dateFolderMatch ((rel.get? j).getD "") = false := by
  intro i
  induction i with
  | zero =>
    intro k h
    rw [scanDown] at h
    by_cases hc : dateFolderMatch ((rel.get? 0).getD "") = true
    · rw [if_pos hc] at h
      injection h with hk
      subst hk
      exact ⟨Nat.le_refl 0, hc,
        fun j hj1 hj2 => absurd (Nat.lt_of_lt_of_le hj1 hj2) (Nat.lt_irrefl _)⟩
    · rw [if_neg hc] at h
      exact Option.noConfusion h
  | succ i ih =>
    intro k h
    rw [scanDown] at h
    by_cases hc : dateFolderMatch ((rel.get? (i + 1)).getD "") = true
    · rw [if_pos hc] at h
      injection h with hk
      subst hk
      exact ⟨Nat.le_refl _, hc,
        fun j hj1 hj2 => absurd (Nat.lt_of_lt_of_le hj1 hj2) (Nat.lt_irrefl _)⟩
    · rw [if_neg hc] at h
      obtain ⟨h1, h2, h3⟩ := ih k h
      refine ⟨Nat.le_succ_of_le h1, h2, ?_⟩
      intro j hj1 hj2
      rcases Nat.lt_or_ge j (i + 1) with hj | hj
      · exact h3 j hj1 (by omega)
      · have hje : j = i + 1 := by omega
        subst hje
        simpa using hc

theorem scanDown_none_spec (rel : List String) :
    ∀ i, scanDown rel i = none →
      ∀ j, j ≤ i → dateFolderMatch ((rel.get? j).getD "") = false := by
  intro i
  induction i with
  | zero =>
    intro h j hj
    have hj0 : j = 0 := Nat.le_zero.mp hj
    subst hj0
    rw [scanDown] at h
    by_cases hc : dateFolderMatch ((rel.get? 0).getD "") = true
    · rw [if_pos hc] at h; exact Option.noConfusion h
    · simpa using hc
  | succ i ih =>
    intro h j hj
    rw [scanDown] at h
    by_cases hc : dateFolderMatch ((rel.get? (i + 1)).getD "") = true
    · rw [if_pos hc] at h; exact Option.noConfusion h
    · rw [if_neg hc] at h
      rcases Nat.lt_or_ge j (i + 1) with hjl | hjl
      · exact ih h j (by omega)
      · have hje : j = i + 1 := by omega
        subst hje
        simpa using hc

/-- The session assignment exactly as claim C2 words it: scan the relative
segments from the deepest directory segment backward, excluding the object
(first) segment; the first date-matching segment is the session, and when no
scanned segment matches, the session falls back to the immediate parent
folder name. -/
def scanDownExcl (rel : List String) : Nat → Option Nat
  | 0 => none
  | i + 1 =>
    if dateFolderMatch ((rel.get? (i + 1)).getD "") then some (i + 1)
    else scanDownExcl rel i

/-- Session per the wording of claim C2 (object segment excluded). -/
def sessionPerClaimC2 (path root : PathT) : String :=
  if leadsP root path then
    let rel := path.drop root.length
    let n := rel.length
    match (if n ≥ 2 then scanDownExcl rel (n - 2) else none) with
    | some i => (rel.get? i).getD ""
    | none => parentName path
  else parentName path

/-- C2 counterexample: when the object (first) segment itself matches the
date pattern and no deeper segment does, the source loop — which runs down to
index 0 inclusive — returns the object segment as the session, while the
claim (which excludes the object segment) would fall back to the immediate
parent folder name. -/
theorem c2_counterexample :
    (get_metadata_from_path ["2024-01-01 M42", "sub", "f.fits"] []).2.2 =
      "2024-01-01 M42" ∧
    sessionPerClaimC2 ["2024-01-01 M42", "sub", "f.fits"] [] = "sub" ∧
    ("2024-01-01 M42" : String) ≠ "sub" := by
  refine ⟨by decide, by decide, by decide⟩

/-- C2 amended: for a file under the scan root, the decomposer scans the
relative segments from the deepest directory segment backward down to and
including the object (first) segment; the first date-matching segment is the
session, with the segment just before it as telescope when the session sits
at index 2 or deeper; if no scanned segment (object included) matches, the
session falls back to the immediate parent folder name and the telescope
stays the sentinel.  The object is the first relative segment when at least
one directory level is present. -/
theorem c2_decompose_amended :
    ∀ (path root : PathT), leadsP root path = true →
      ((get_metadata_from_path path root).1 =
        if (path.drop root.length).length > 1
        then (((path.drop root.length).get? 0).getD "") else "") ∧
      ((∃ i, i + 2 ≤ (path.drop root.length).length ∧
          dateFolderMatch (((path.drop root.length).get? i).getD "") = true ∧
          (∀ j, i < j → j + 2 ≤ (path.drop root.length).length →
            dateFolderMatch (((path.drop root.length).get? j).getD "") = false) ∧
          (get_metadata_from_path path root).2.2 =
            (((path.drop root.length).get? i).getD "") ∧
          (get_metadata_from_path path root).2.1 =
            (if i > 1 then (((path.drop root.length).get? (i - 1)).getD "")
             else "missing info")) ∨
        ((∀ j, j + 2 ≤ (path.drop root.length).length →
            dateFolderMatch (((path.drop root.length).get? j).getD "") = false) ∧
          (get_metadata_from_path path root).2.2 = parentName path ∧
          (get_metadata_from_path path root).2.1 = "missing info")) := by
  intro path root hroot
  by_cases hn : 2 ≤ (path.drop root.length).length
  · cases hsd : scanDown (path.drop root.length) ((path.drop root.length).length - 2) with
    | some i =>
      obtain ⟨h1, h2, h3⟩ := scanDown_some_spec _ _ _ hsd
      have hne : (((path.drop root.length).get? i).getD "" == "") = false :=
        beq_eq_false_iff_ne.mpr (dateMatch_ne_empty h2)
      have heq : get_metadata_from_path path root =
          ((if (path.drop root.length).length > 1
            then (((path.drop root.length).get? 0).getD "") else ""),
           (if i > 1 then (((path.drop root.length).get? (i - 1)).getD "")
            else "missing info"),
           (((path.drop root.length).get? i).getD "")) := by
        unfold get_metadata_from_path
        rw [hroot]
        simp only [if_true]
        rw [if_pos hn, hsd]
        simp only [hne, Bool.false_eq_true, if_false]
      rw [heq]
      refine ⟨rfl, Or.inl ⟨i, by omega, h2, ?_, rfl, rfl⟩⟩
      intro j hj1 hj2
      exact h3 j hj1 (by omega)
    | none =>
      have hall := scanDown_none_spec _ _ hsd
      have heq : get_metadata_from_path path root =
          ((if (path.drop root.length).length > 1
            then (((path.drop root.length).get? 0).getD "") else ""),
           "missing info", parentName path) := by
        unfold get_metadata_from_path
        rw [hroot]
        simp only [if_true]
        rw [if_pos hn, hsd]
        simp
      rw [heq]
      exact ⟨rfl, Or.inr ⟨fun j hj => hall j (by omega), rfl, rfl⟩⟩
  · have heq : get_metadata_from_path path root =
        ((if (path.drop root.length).length > 1
          then (((path.drop root.length).get? 0).getD "") else ""),
         "missing info", parentName path) := by
      unfold get_metadata_from_path
      rw [hroot]
      simp only [if_true]
      rw [if_neg hn]
      simp
    rw [heq]
    exact ⟨rfl, Or.inr ⟨fun j hj => absurd hj (by omega), rfl, rfl⟩⟩

/-- Closed witness for C2 amended at the concrete path of the spec example. -/
theorem c2_decompose_amended_witness :
    (get_metadata_from_path ["M42", "2000mm Telescope", "2024-02-07 Backyard UVIR",
        "Light_M42_123deg_67.0s_-273C_Bin1_PlayerOne_gain456_001.fits"] []).1 =
      (if ((["M42", "2000mm Telescope", "2024-02-07 Backyard UVIR",
          "Light_M42_123deg_67.0s_-273C_Bin1_PlayerOne_gain456_001.fits"] : PathT).drop
            ([] : PathT).length).length > 1
       then ((((["M42", "2000mm Telescope", "2024-02-07 Backyard UVIR",
          "Light_M42_123deg_67.0s_-273C_Bin1_PlayerOne_gain456_001.fits"] : PathT).drop
            ([] : PathT).length).get? 0).getD "") else "") :=
  (c2_decompose_amended ["M42", "2000mm Telescope", "2024-02-07 Backyard UVIR",
      "Light_M42_123deg_67.0s_-273C_Bin1_PlayerOne_gain456_001.fits"] []
    (by decide)).1

/-! ## Ancestor-chain lemmas for the taint tracker -/

theorem leadsP_refl (a : PathT) : leadsP a a = true := by
  induction a with
  | nil => rfl
  | cons x xs ih => simp [leadsP, ih]

theorem leadsP_append (a t : PathT) : leadsP a (a ++ t) = true := by
  induction a with
  | nil => rfl
  | cons x xs ih => simp [leadsP, ih]

theorem leadsP_ex {a b : PathT} (h : leadsP a b = true) : ∃ t, b = a ++ t := by
  induction a generalizing b with
  | nil => exact ⟨b, rfl⟩
  | cons x xs ih =>
    cases b with
    | nil => simp [leadsP] at h
    | cons y ys =>
      simp only [leadsP, Bool.and_eq_true, beq_iff_eq] at h
      obtain ⟨t, ht⟩ := ih h.2
      exact ⟨t, by rw [h.1, ht]; rfl⟩

theorem leadsP_length {a b : PathT} (h : leadsP a b = true) :
    a.length ≤ b.length := by
  obtain ⟨t, ht⟩ := leadsP_ex h
  subst ht
  simp

theorem leadsP_eq_of_length {a b : PathT} (h : leadsP a b = true)
    (hl : a.length = b.length) : a = b := by
  obtain ⟨t, ht⟩ := leadsP_ex h
  subst ht
  have : t = [] := by
    have := List.length_append a t
    exact List.length_eq_zero.mp (by omega)
  simp [this]

theorem leadsP_trans {a b c : PathT} (h1 : leadsP a b = true)
    (h2 : leadsP b c = true) : leadsP a c = true := by
  obtain ⟨t1, ht1⟩ := leadsP_ex h1
  obtain ⟨t2, ht2⟩ := leadsP_ex h2
  subst ht1
  subst ht2
  rw [List.append_assoc]
  exact leadsP_append _ _

theorem dropLast_append_of_ne_nil (a : PathT) :
    ∀ t : PathT, t ≠ [] → (a ++ t).dropLast = a ++ t.dropLast := by
  induction a with
  | nil => intro t _; rfl
  | cons x xs ih =>
    intro t ht
    have hne : xs ++ t ≠ [] := by
      intro hc
      exact ht (List.append_eq_nil.mp hc).2
    rw [List.cons_append]
    cases hxs : xs ++ t with
    | nil => exact absurd hxs hne
    | cons y ys =>
      rw [← hxs, List.dropLast_cons_of_ne_nil hne, ih t ht, List.cons_append]

theorem leadsP_dropLast {a b : PathT} (h : leadsP a b = true)
    (hl : a.length < b.length) : leadsP a b.dropLast = true := by
  obtain ⟨t, ht⟩ := leadsP_ex h
  subst ht
  have htne : t ≠ [] := by
    intro hc
    subst hc
    simp at hl
  rw [dropLast_append_of_ne_nil a t htne]
  exact leadsP_append _ _

theorem leadsP_dropLast_self (p : PathT) (h : p ≠ []) :
    leadsP p.dropLast p = true := by
  have hl := leadsP_append p.dropLast [p.getLast h]
  rwa [List.dropLast_append_getLast h] at hl

/-! ## Lemmas about `_bubble_up_edit_status` -/

theorem bubble_mem_mono_fuel :
    ∀ (n : Nat) (p root : PathT), p.length ≤ n →
      ∀ (c : List PathT) (q : PathT), q ∈ c →
        q ∈ bubble_up_edit_status p root c := by
  intro n
  induction n with
  | zero =>
    intro p root hp c q hq
    have hpn : p = [] := List.length_eq_zero.mp (Nat.le_zero.mp hp)
    subst hpn
    unfold bubble_up_edit_status
    simp only [List.dropLast_nil, or_true, dite_true]
    exact hq
  | succ n ih =>
    intro p root hp c q hq
    unfold bubble_up_edit_status
    split
    · exact hq
    · next h =>
      have hne : p ≠ [] := fun hn => h (Or.inr (by rw [hn]; rfl))
      have h1 := List.length_dropLast p
      have h2 := List.length_pos.mpr hne
      exact ih p.dropLast root (by omega) (p :: c) q (List.mem_cons_of_mem _ hq)

theorem bubble_mem_mono (p root : PathT) (c : List PathT) (q : PathT)
    (hq : q ∈ c) : q ∈ bubble_up_edit_status p root c :=
  bubble_mem_mono_fuel p.length p root (Nat.le_refl _) c q hq

theorem bubble_marks_fuel :
    ∀ (n : Nat) (p root : PathT), p.length ≤ n →
      ∀ (c : List PathT) (q : PathT), leadsP root p = true → leadsP q p = true →
        root.length < q.length → q ∈ bubble_up_edit_status p root c := by
  intro n
  induction n with
  | zero =>
    intro p root hp c q h1 h2 h3
    have := leadsP_length h2
    omega
  | succ n ih =>
    intro p root hp c q h1 h2 h3
    have hql := leadsP_length h2
    have hrl := leadsP_length h1
    have hpne : p ≠ [] := by
      intro hn
      subst hn
      simp only [List.length_nil] at hql
      omega
    unfold bubble_up_edit_status
    split
    · next hcond =>
      exfalso
      rcases hcond with hc | hc
      · subst hc; omega
      · have hdl := List.length_dropLast p
        have hpos := List.length_pos.mpr hpne
        rw [← hc] at hdl
        omega
    · next hcond =>
      have hdl := List.length_dropLast p
      have hpos := List.length_pos.mpr hpne
      by_cases hqp : q = p
      · subst hqp
        exact bubble_mem_mono _ _ _ _ (List.mem_cons_self _ _)
      · have hqlt : q.length < p.length := by
          rcases Nat.lt_or_ge q.length p.length with h | h
          · exact h
          · exact absurd (leadsP_eq_of_length h2 (by omega)) hqp
        have hrp : root ≠ p := by
          intro hc
          subst hc
          omega
        have hrlt : root.length < p.length := by omega
        exact ih p.dropLast root (by omega) (p :: c) q
          (leadsP_dropLast h1 hrlt) (leadsP_dropLast h2 hqlt) h3

theorem bubble_marks (p root : PathT) (c : List PathT) (q : PathT)
    (h1 : leadsP root p = true) (h2 : leadsP q p = true)
    (h3 : root.length < q.length) : q ∈ bubble_up_edit_status p root c :=
  bubble_marks_fuel p.length p root (Nat.le_refl _) c q h1 h2 h3

theorem bubble_mem_inv_fuel :
    ∀ (n : Nat) (p root : PathT), p.length ≤ n →
      ∀ (c : List PathT) (q : PathT), leadsP root p = true →
        q ∈ bubble_up_edit_status p root c →
        q ∈ c ∨ (leadsP q p = true ∧ leadsP root q = true ∧
          root.length < q.length) := by
  intro n
  induction n with
  | zero =>
    intro p root hp c q h1 hmem
    have hpn : p = [] := List.length_eq_zero.mp (Nat.le_zero.mp hp)
    subst hpn
    unfold bubble_up_edit_status at hmem
    simp only [List.dropLast_nil, or_true, dite_true] at hmem
    exact Or.inl hmem
  | succ n ih =>
    intro p root hp c q h1 hmem
    rw [bubble_up_edit_status] at hmem
    split at hmem
    · exact Or.inl hmem
    · next hcond =>
      have hpne : p ≠ [] := fun hn => hcond (Or.inr (by rw [hn]; rfl))
      have hdl := List.length_dropLast p
      have hpos := List.length_pos.mpr hpne
      have hrp : root ≠ p := fun hc => hcond (Or.inl hc.symm)
      have hrlt : root.length < p.length := by
        have := leadsP_length h1
        rcases Nat.lt_or_ge root.length p.length with h | h
        · exact h
        · exact absurd (leadsP_eq_of_length h1 (by omega)) hrp
      have hrec := ih p.dropLast root (by omega) (p :: c) q
        (leadsP_dropLast h1 hrlt) hmem
      rcases hrec with hin | ⟨hq1, hq2, hq3⟩
      · rcases List.mem_cons.mp hin with hqp | hqc
        · subst hqp
          exact Or.inr ⟨leadsP_refl _, h1, hrlt⟩
        · exact Or.inl hqc
      · exact Or.inr ⟨leadsP_trans hq1 (leadsP_dropLast_self p hpne), hq2, hq3⟩

theorem bubble_mem_inv (p root : PathT) (c : List PathT) (q : PathT)
    (h1 : leadsP root p = true) (hmem : q ∈ bubble_up_edit_status p root c) :
    q ∈ c ∨ (leadsP q p = true ∧ leadsP root q = true ∧ root.length < q.length) :=
  bubble_mem_inv_fuel p.length p root (Nat.le_refl _) c q h1 hmem

/-! ## Claim C7: calibration exemption is detection-only -/

/-- C7: a folder whose path string contains a calibration keyword never
triggers edit detection from its own files (whatever those files are), yet
any folder lying on the upward chain from a tainted descendant to the scan
root — calibration-named or not — is marked by the propagation step. -/
theorem c7_calibration_exemption :
    (∀ (files : List String) (current_dir : String),
      CALIBRATION_KEYWORDS.any (fun k => strContains k (lowerS current_dir)) = true →
      has_edits_in_folder files current_dir = false) ∧
    (∀ (p root a : PathT) (c : List PathT),
      leadsP root p = true → leadsP a p = true → root.length < a.length →
      a ∈ bubble_up_edit_status p root c) := by
  constructor
  · intro files current_dir h
    simp [has_edits_in_folder, h]
  · intro p root a c h1 h2 h3
    exact bubble_marks p root c a h1 h2 h3

/-- Closed witness for C7: a calibration folder holding a stacked tif does
not self-detect, but is marked when a tainted descendant bubbles up. -/
theorem c7_calibration_exemption_witness :
    has_edits_in_folder ["stacked_result.tif"] "M42/darks" = false ∧
    ["r", "M42", "darks"] ∈
      bubble_up_edit_status ["r", "M42", "darks", "sub"] ["r"] [] :=
  ⟨c7_calibration_exemption.1 ["stacked_result.tif"] "M42/darks" (by decide),
   c7_calibration_exemption.2 ["r", "M42", "darks", "sub"] ["r"]
     ["r", "M42", "darks"] [] (by decide) (by decide) (by decide)⟩

/-! ## Claim C4: the taint map is ancestor-closed and monotone -/

/-- The C4 invariant: every marked folder is strictly below the scan root,
and every ancestor of a marked folder strictly below the scan root is marked
as well. -/
def taintClosed (root : PathT) (cache : List PathT) : Prop :=
  ∀ q ∈ cache, leadsP root q = true ∧ root.length < q.length ∧
    ∀ a : PathT, leadsP a q = true → leadsP root a = true →
      root.length < a.length → a ∈ cache

theorem taintClosed_bubble (root p : PathT) (cache : List PathT)
    (hroot : leadsP root p = true) (hc : taintClosed root cache) :
    taintClosed root (bubble_up_edit_status p root cache) := by
  intro q hq
  rcases bubble_mem_inv p root cache q hroot hq with hold | ⟨hq1, hq2, hq3⟩
  · obtain ⟨g1, g2, g3⟩ := hc q hold
    exact ⟨g1, g2, fun a ha1 ha2 ha3 =>
      bubble_mem_mono p root cache a (g3 a ha1 ha2 ha3)⟩
  · exact ⟨hq2, hq3, fun a ha1 ha2 ha3 =>
      bubble_marks p root cache a hroot (leadsP_trans ha1 hq1) ha3⟩

theorem taintClosed_taintStep (root : PathT) (cache : List PathT)
    (e : WalkEntry) (hroot : leadsP root e.dir = true)
    (hc : taintClosed root cache) : taintClosed root (taintStep root cache e) := by
  unfold taintStep
  split
  · exact taintClosed_bubble root e.dir cache hroot hc
  · exact hc

theorem taintStep_mono (root : PathT) (cache : List PathT) (e : WalkEntry)
    (q : PathT) (hq : q ∈ cache) : q ∈ taintStep root cache e := by
  unfold taintStep
  split
  · exact bubble_mem_mono _ _ _ _ hq
  · exact hq

theorem taintClosed_foldl (root : PathT) :
    ∀ (ws : List WalkEntry) (cache : List PathT),
      (∀ e ∈ ws, leadsP root e.dir = true) → taintClosed root cache →
      taintClosed root (ws.foldl (taintStep root) cache) := by
  intro ws
  induction ws with
  | nil => intro cache _ hc; exact hc
  | cons e rest ih =>
    intro cache hw hc
    rw [List.foldl_cons]
    exact ih (taintStep root cache e)
      (fun x hx => hw x (List.mem_cons_of_mem _ hx))
      (taintClosed_taintStep root cache e (hw e (List.mem_cons_self _ _)) hc)

theorem walkPhase_some_spec (stop : Nat → Bool) (root : PathT) :
    ∀ (ws : List WalkEntry) (k : Nat) (cache files : List PathT)
      (k2 : Nat) (c2 f2 : List PathT),
      walkPhase stop root ws k cache files = some (k2, c2, f2) →
      c2 = ws.foldl (taintStep root) cache ∧ k2 = k + ws.length ∧
        f2 = files ++ (ws.map candidatesOf).flatten := by
  intro ws
  induction ws with
  | nil =>
    intro k cache files k2 c2 f2 h
    rw [walkPhase] at h
    have h2 := Option.some.inj h
    rw [Prod.mk.injEq, Prod.mk.injEq] at h2
    obtain ⟨hk, hc, hf⟩ := h2
    subst hk
    subst hc
    subst hf
    simp
  | cons e rest ih =>
    intro k cache files k2 c2 f2 h
    rw [walkPhase] at h
    split at h
    · exact Option.noConfusion h
    · obtain ⟨hc, hk, hf⟩ := ih (k + 1) (taintStep root cache e)
        (files ++ candidatesOf e) k2 c2 f2 h
      refine ⟨hc, by simp [hk]; omega, ?_⟩
      rw [hf]
      simp

/-- C4: during a scan, after any number of processed walk entries the taint
map satisfies the ancestor-closure invariant (every marked folder and each of
its ancestors strictly below the scan root is marked), marks are never
removed by later walk entries, and the taint map computed by the interrupted
walk loop of `scan_folder` coincides with this fold whenever the walk runs to
completion. -/
theorem c4_taint_closed_monotone :
    ∀ (walk : List WalkEntry) (root : PathT),
      (∀ e ∈ walk, leadsP root e.dir = true) →
      (∀ k : Nat, taintClosed root (taintAfter (walk.take k) root)) ∧
      (∀ (k : Nat) (q : PathT), q ∈ taintAfter (walk.take k) root →
        q ∈ taintAfter (walk.take (k + 1)) root) ∧
      (∀ (stop : Nat → Bool) (k : Nat) (c f : List PathT),
        walkPhase stop root walk 0 [] [] = some (k, c, f) →
        c = taintAfter walk root) := by
  intro walk root hw
  refine ⟨?_, ?_, ?_⟩
  case refine_3 =>
    intro stop k c f h
    exact (walkPhase_some_spec stop root walk 0 [] [] k c f h).1
  · intro k
    apply taintClosed_foldl root (walk.take k) []
      (fun e he => hw e (List.mem_of_mem_take he))
    intro q hq
    exact absurd hq (List.not_mem_nil q)
  · intro k q hq
    rcases Nat.lt_or_ge k walk.length with hk | hk
    · have hsplit : walk.take (k + 1) = walk.take k ++ [walk[k]] := by
        rw [List.take_succ, List.getElem?_eq_getElem hk]
        rfl
      rw [hsplit]
      unfold taintAfter
      rw [List.foldl_append]
      exact taintStep_mono root _ _ q hq
    · have h1 : walk.take k = walk := List.take_of_length_le (by omega)
      have h2 : walk.take (k + 1) = walk := List.take_of_length_le (by omega)
      rw [h1] at hq
      rw [h2]
      exact hq

/-- Closed witness for C4 at a concrete walk. -/
theorem c4_taint_closed_monotone_witness :
    taintClosed ["r"]
      (taintAfter (([⟨["r"], []⟩, ⟨["r", "M42"], []⟩,
        ⟨["r", "M42", "2024-01-01 s"], ["edit.tif"]⟩] : List WalkEntry).take 3) ["r"]) :=
  (c4_taint_closed_monotone
    [⟨["r"], []⟩, ⟨["r", "M42"], []⟩, ⟨["r", "M42", "2024-01-01 s"], ["edit.tif"]⟩]
    ["r"] (by decide)).1 3

/-! ## Claim C8: a stop request yields the empty result list -/

theorem walkPhase_stop (stop : Nat → Bool) (root : PathT) :
    ∀ (ws : List WalkEntry) (k : Nat) (cache files : List PathT),
      (∃ j, j < ws.length ∧ stop (k + j) = true) →
      walkPhase stop root ws k cache files = none := by
  intro ws
  induction ws with
  | nil =>
    intro k cache files h
    obtain ⟨j, hj, _⟩ := h
    simp at hj
  | cons e rest ih =>
    intro k cache files h
    obtain ⟨j, hj, hs⟩ := h
    rw [walkPhase]
    by_cases hk : stop k = true
    · rw [if_pos hk]
    · rw [if_neg hk]
      have hj0 : j ≠ 0 := by
        intro hc
        subst hc
        simp at hs
        exact hk hs
      apply ih (k + 1) _ _
      exact ⟨j - 1, by simp at hj ⊢; omega, by
        have : k + 1 + (j - 1) = k + j := by omega
        rw [this]; exact hs⟩

theorem extractLoop_stop (stop : Nat → Bool) (extractor : PathT → Meta)
    (root : PathT) (editCache : List PathT) :
    ∀ (files : List PathT) (k : Nat) (scache : SessionCache) (rows : List Row),
      (∃ j, j < files.length ∧ stop (k + j) = true) →
      extractLoop stop extractor root editCache files k scache rows = [] := by
  intro files
  induction files with
  | nil =>
    intro k scache rows h
    obtain ⟨j, hj, _⟩ := h
    simp at hj
  | cons p rest ih =>
    intro k scache rows h
    obtain ⟨j, hj, hs⟩ := h
    rw [extractLoop]
    by_cases hk : stop k = true
    · rw [if_pos hk]
    · rw [if_neg hk]
      have hj0 : j ≠ 0 := by
        intro hc
        subst hc
        simp at hs
        exact hk hs
      apply ih (k + 1) _ _
      exact ⟨j - 1, by simp at hj ⊢; omega, by
        have : k + 1 + (j - 1) = k + j := by omega
        rw [this]; exact hs⟩

/-- C8: whenever the cancellation flag reads true at one of the scan
checkpoints — one before each directory of the walk, one before each
collected file candidate — `scan_folder` returns the empty list, never a
partial result set. -/
theorem c8_stop_returns_empty :
    ∀ (stop : Nat → Bool) (extractor : PathT → Meta) (walk : List WalkEntry)
      (root : PathT) (k : Nat),
      k < walk.length + ((walk.map candidatesOf).flatten).length →
      stop k = true →
      scan_folder stop extractor walk root = [] := by
  intro stop extractor walk root k hk hstop
  unfold scan_folder
  cases hw : walkPhase stop root walk 0 [] [] with
  | none => rfl
  | some v =>
    obtain ⟨k2, c2, f2⟩ := v
    obtain ⟨hc, hk2, hf⟩ := walkPhase_some_spec stop root walk 0 [] [] k2 c2 f2 hw
    have hknotwalk : ¬ (k < walk.length) := by
      intro hlt
      have hnone : walkPhase stop root walk 0 [] [] = none :=
        walkPhase_stop stop root walk 0 [] [] ⟨k, hlt, by simpa using hstop⟩
      rw [hnone] at hw
      exact Option.noConfusion hw
    apply extractLoop_stop
    refine ⟨k - walk.length, ?_, ?_⟩
    · rw [hf]
      simp only [List.nil_append, List.length_flatten]
      simp only [List.length_flatten] at hk
      omega
    · rw [hk2]
      have heq : 0 + walk.length + (k - walk.length) = k := by omega
      rw [heq]
      exact hstop

/-- Closed witness for C8: a stop observed at the file-candidate checkpoint
discards the walk results. -/
theorem c8_stop_returns_empty_witness :
    scan_folder (fun n => n == 1) (fun _ => [])
      [⟨["r", "2024-01-01 s"], ["Light_a.fits"]⟩] ["r"] = [] :=
  c8_stop_returns_empty (fun n => n == 1) (fun _ => [])
    [⟨["r", "2024-01-01 s"], ["Light_a.fits"]⟩] ["r"] 1 (by decide) (by decide)

/-! ## Claim C10: the sanitizer pins a filter, so validated files always
yield a record -/

theorem identify_filter_mem (s : String) :
    identify_filter s = "Broadband/Unknown" ∨ identify_filter s ∈ FILTER_VALUES := by
  unfold identify_filter
  cases hf : FILTER_KEYWORDS.find? (fun kv => wordBoundSearch kv.1 s) with
  | none => exact Or.inl rfl
  | some kv =>
    exact Or.inr (List.mem_map_of_mem Prod.snd (List.mem_of_find?_eq_some hf))

theorem identify_filter_not_empty (s : String) :
    (identify_filter s).isEmpty = false := by
  rcases identify_filter_mem s with h | h
  · rw [h]; rfl
  · have hall : ∀ v ∈ FILTER_VALUES, v.isEmpty = false := by decide
    exact hall _ h

theorem cleanupFilterFromSession_truthy (m : Meta) (si : String) :
    truthy (metaGet (cleanupFilterFromSession m si) "filter") = true := by
  unfold cleanupFilterFromSession
  split
  · rw [metaGet_metaSet_self]
    simp [truthy, identify_filter_not_empty]
  · next h =>
    simp only [Bool.or_eq_true, not_or, Bool.not_eq_true'] at h
    simp at h
    exact h.1

theorem cleanupFilterCanonical_ok (m : Meta)
    (h : truthy (metaGet m "filter") = true) :
    ∃ v, metaGet (cleanupFilterCanonical m) "filter" = some v ∧
      v.isEmpty = false ∧ (v ∈ FILTER_VALUES ∨ v = "Broadband/Unknown") := by
  unfold cleanupFilterCanonical
  split
  · refine ⟨identify_filter ((metaGet m "filter").getD ""), metaGet_metaSet_self _ _ _,
      identify_filter_not_empty _, ?_⟩
    rcases identify_filter_mem ((metaGet m "filter").getD "") with hm | hm
    · exact Or.inr hm
    · exact Or.inl hm
  · next hc =>
    cases hm : metaGet m "filter" with
    | none => rw [hm] at h; exact absurd h (by decide)
    | some v =>
      rw [hm] at h hc
      have hvf : FILTER_VALUES.contains v = true := by
        by_contra hvv
        have hvf2 : FILTER_VALUES.contains v = false := by
          revert hvv
          cases FILTER_VALUES.contains v <;> simp
        apply hc
        have hmr : (match some v with
            | some v => FILTER_VALUES.contains v
            | none => false) = FILTER_VALUES.contains v := rfl
        rw [hmr, h, hvf2]
        rfl
      refine ⟨v, rfl, by simpa [truthy] using h, Or.inl (by simpa using hvf)⟩

theorem cleanupGain_filter (m : Meta) :
    metaGet (cleanupGain m) "filter" = metaGet m "filter" := by
  simp only [cleanupGain]
  split
  · exact metaGet_metaSet_ne _ _ _ _ (by decide)
  · rfl

theorem cleanup_filter_ok (meta : Meta) (fn si : String) :
    ∃ v, metaGet (cleanup_parsed_metadata meta fn si) "filter" = some v ∧
      v.isEmpty = false ∧ (v ∈ FILTER_VALUES ∨ v = "Broadband/Unknown") := by
  unfold cleanup_parsed_metadata
  rw [cleanupGain_filter]
  exact cleanupFilterCanonical_ok _
    (cleanupFilterFromSession_truthy _ si)

theorem syncStep_fst_ne_nil (a : Meta × SessionMetadata) (f : SField) :
    (syncStep a f).1 ≠ [] := by
  unfold syncStep
  split
  · exact metaSet_ne_nil _ _ _
  · next h =>
    have ht : truthy (metaGet a.1 f.fname) = true := by simpa using h
    intro hnil
    rw [hnil] at ht
    exact absurd ht (by simp [metaGet, List.lookup, truthy])

theorem sync_fst_ne_nil (m : Meta) (s : SessionMetadata) :
    (sync_session_data m s).1 ≠ [] := by
  have he : sync_session_data m s =
      syncStep ([SField.camera, .filter, .gain, .exposure].foldl syncStep (m, s))
        .temperature := rfl
  rw [he]
  exact syncStep_fst_ne_nil _ _

theorem sync_fst_isEmpty (m : Meta) (s : SessionMetadata) :
    (sync_session_data m s).1.isEmpty = false := by
  cases hm : (sync_session_data m s).1 with
  | nil => exact absurd hm (sync_fst_ne_nil m s)
  | cons kv rest => rfl

/-- C10: the sanitizer unconditionally leaves the filter field holding a
non-empty string (a canonical vocabulary value or the sentinel), and for
every candidate file that passes validation the per-file pipeline emits a
record — the empty-metadata skip branch of `_extract_metadata` is
unreachable for validated files, whatever the header reader returns. -/
theorem c10_validated_always_emits :
    (∀ (meta : Meta) (fn si : String),
      ∃ v, metaGet (cleanup_parsed_metadata meta fn si) "filter" = some v ∧
        v.isEmpty = false ∧ (v ∈ FILTER_VALUES ∨ v = "Broadband/Unknown")) ∧
    (∀ (headerMeta : Meta) (path root : PathT) (scache : SessionCache)
      (editCache : List PathT),
      is_valid_file path (get_metadata_from_path path root).2.2 = true →
      (extract_metadata headerMeta path root scache editCache).1 ≠ none) := by
  constructor
  · exact cleanup_filter_ok
  · intro hm path root scache editCache hvalid
    unfold extract_metadata
    simp only [hvalid, Bool.not_true, Bool.false_eq_true, if_false,
      sync_fst_isEmpty]
    split <;> simp

/-- Closed witness for C10 at the concrete validated candidate. -/
theorem c10_validated_always_emits_witness :
    (extract_metadata [] ["M42", "2024-02-07 Backyard",
      "Light_M42_Bin1_CamA_gain456_001.fits"] [] [] []).1 ≠ none :=
  c10_validated_always_emits.2 [] ["M42", "2024-02-07 Backyard",
    "Light_M42_Bin1_CamA_gain456_001.fits"] [] [] [] (by decide)

/-! ## Claim C1: header output versus filename-derived values -/

theorem lookup_eq_none_keys (l : Meta) (k : String) (h : k ∉ l.map Prod.fst) :
    l.lookup k = none := by
  induction l with
  | nil => rfl
  | cons kv rest ih =>
    have h1 : k ≠ kv.1 := by
      intro hc
      exact h (by simp [hc])
    have h2 : kv.1 ∈ (kv :: rest).map Prod.fst → kv.1 ∈ (kv :: rest).map Prod.fst :=
      id
    simp only [List.lookup, beq_eq_false_iff_ne.mpr h1]
    exact ih (fun hm => h (by simp [List.mem_cons_of_mem, hm]))

/-- C1 counterexample: a candidate whose filename parse yields camera
`CamA` (and gain `456`, exposure `67.0`) but no temperature, so the
gatekeeper invokes the header reader; the reader reports camera
`ZWO ASI294MC`.  The merge `meta.update({k: v for k, v in
extracted_meta.items() if v})` overwrites the non-empty filename-derived
camera with the header value, contradicting the claim that an
already-present filename-derived value is kept. -/
theorem c1_counterexample :
    needs_header_extraction ".fits"
      ((sync_session_data
        (cleanup_parsed_metadata
          (get_metadata_from_filename "Light_M42_67.0s_Bin1_CamA_gain456_001.fits")
          "Light_M42_67.0s_Bin1_CamA_gain456_001.fits" "2024-02-07 Backyard") {}).1)
      = true ∧
    metaGet
      (cleanup_parsed_metadata
        (get_metadata_from_filename "Light_M42_67.0s_Bin1_CamA_gain456_001.fits")
        "Light_M42_67.0s_Bin1_CamA_gain456_001.fits" "2024-02-07 Backyard")
      "camera" = some "CamA" ∧
    ((extract_metadata
        [("camera", some "ZWO ASI294MC"), ("gain", some "120"),
         ("temperature", some "-10.0"), ("exposure", some "180.0"), ("filter", none)]
        ["M42", "2024-02-07 Backyard", "Light_M42_67.0s_Bin1_CamA_gain456_001.fits"]
        [] [] []).1.map Row.camera) = some (some "ZWO ASI294MC") ∧
    some (some "ZWO ASI294MC") ≠ some (some "CamA") := by
  refine ⟨by decide, by decide, by decide, by decide⟩

/-- C1 amended: after the gatekeeper step, every field for which the
(synced, sanitized) header output holds a non-empty value carries that header
value in the working metadata — a non-empty filename-derived value is
overwritten, not kept; only fields whose header output is empty keep their
previous value. -/
theorem c1_header_merge_amended :
    ∀ (meta em : Meta) (k : String), (em.map Prod.fst).Nodup →
      metaGet (metaUpdateTruthy meta em) k =
        if truthy (metaGet em k) then metaGet em k else metaGet meta k := by
  intro meta em
  induction em generalizing meta with
  | nil =>
    intro k _
    simp [metaUpdateTruthy, metaGet, List.lookup, truthy]
  | cons kv rest ih =>
    intro k hnd
    rcases kv with ⟨k0, v0⟩
    have hmap : ((⟨k0, v0⟩ :: rest : Meta).map Prod.fst) =
        k0 :: rest.map Prod.fst := rfl
    rw [hmap] at hnd
    have hk0 : k0 ∉ rest.map Prod.fst := (List.nodup_cons.mp hnd).1
    have hnd2 : (rest.map Prod.fst).Nodup := (List.nodup_cons.mp hnd).2
    have hstep : metaUpdateTruthy meta ((k0, v0) :: rest) =
        metaUpdateTruthy (if truthy v0 then metaSet meta k0 v0 else meta) rest := rfl
    rw [hstep, ih _ k hnd2]
    have htn : truthy none = false := rfl
    by_cases hk : k = k0
    · subst hk
      have hr : metaGet rest k = none := by
        simp [metaGet, lookup_eq_none_keys rest k hk0]
      have he : metaGet ((k, v0) :: rest) k = v0 := by
        simp [metaGet, List.lookup]
      rw [hr, he, htn]
      simp only [Bool.false_eq_true, if_false]
      by_cases hv : truthy v0 = true
      · rw [if_pos hv, if_pos hv, metaGet_metaSet_self]
      · rw [if_neg hv, if_neg hv]
    · have he : metaGet ((k0, v0) :: rest) k = metaGet rest k := by
        simp [metaGet, List.lookup, beq_eq_false_iff_ne.mpr hk]
      rw [he]
      by_cases hv : truthy v0 = true
      · rw [if_pos hv, metaGet_metaSet_ne _ _ _ _ hk]
      · rw [if_neg hv]

/-- Closed witness for C1 amended at concrete dicts. -/
theorem c1_header_merge_amended_witness :
    metaGet (metaUpdateTruthy [("camera", some "CamA")]
      [("camera", some "ZWO ASI294MC"), ("temperature", some "-10.0")]) "camera" =
      (if truthy (metaGet [("camera", some "ZWO ASI294MC"),
          ("temperature", some "-10.0")] "camera")
       then metaGet [("camera", some "ZWO ASI294MC"),
          ("temperature", some "-10.0")] "camera"
       else metaGet [("camera", some "CamA")] "camera") :=
  c1_header_merge_amended [("camera", some "CamA")]
    [("camera", some "ZWO ASI294MC"), ("temperature", some "-10.0")] "camera"
    (by decide)

/-! ## Claim C5: strict-pattern round trip.

Generic lemmas about the maximal-munch combinators on appended inputs. -/

theorem list_isEmpty_false {α : Type} {l : List α} (h : l ≠ []) :
    l.isEmpty = false := by
  cases l with
  | nil => exact absurd rfl h
  | cons x xs => rfl

theorem beq_false_of_p (p : Char → Bool) {c d : Char} (hc : p c = true)
    (hd : p d = false) : (c == d) = false := by
  cases h : c == d
  · rfl
  · rw [eq_of_beq h] at hc
    rw [hc] at hd
    exact Bool.noConfusion hd

theorem head_cond {p : Char → Bool} {x : Char} (hx : p x = false) (t : List Char) :
    ∀ c, ((x :: t).head? = some c) → p c = false := by
  intro c hc
  have hxc : x = c := Option.some.inj hc
  rw [← hxc]
  exact hx

theorem grab_append (p : Char → Bool) :
    ∀ (a b : List Char), (∀ c ∈ a, p c = true) →
      (∀ c, b.head? = some c → p c = false) →
      grab p (a ++ b) = (a, b) := by
  intro a
  induction a with
  | nil =>
    intro b _ hb
    cases b with
    | nil => rfl
    | cons c cs =>
      have hc := hb c rfl
      simp [grab, hc]
  | cons x xs ih =>
    intro b ha hb
    have hx : p x = true := ha x (List.mem_cons_self _ _)
    simp [grab, hx, ih b (fun c hc => ha c (List.mem_cons_of_mem _ hc)) hb]

theorem stripLit_append (lit : List Char) :
    ∀ rest, stripLit lit (lit ++ rest) = some rest := by
  induction lit with
  | nil => intro rest; rfl
  | cons x xs ih => intro rest; simp [stripLit, ih]

theorem takeCount_append (p : Char → Bool) :
    ∀ (a b : List Char), (∀ c ∈ a, p c = true) →
      takeCount p a.length (a ++ b) = some (a, b) := by
  intro a
  induction a with
  | nil => intro b _; rfl
  | cons x xs ih =>
    intro b ha
    have hx : p x = true := ha x (List.mem_cons_self _ _)
    simp [takeCount, hx, ih b (fun c hc => ha c (List.mem_cons_of_mem _ hc))]

/-! ### The constructed strict filename and its tail segments -/

/-- The rotation tail `_<r>deg` of a constructed strict filename. -/
def tailRot (r : List Char) : List Char := '_' :: (r ++ ['d', 'e', 'g'])

/-- The temperature group substituted into the pattern: optional minus sign,
integer digits, optional fractional digits. -/
def tempGroup (sign : Bool) (ip : List Char) (fp : Option (List Char)) : List Char :=
  (if sign then '-' :: ip else ip) ++
    (match fp with
     | some f2 => '.' :: f2
     | none => [])

/-- The temperature tail `<temp>C_<r>deg`. -/
def tailTemp (sign : Bool) (ip : List Char) (fp : Option (List Char))
    (r : List Char) : List Char :=
  (if sign then '-' :: ip else ip) ++
    ((match fp with
      | some f2 => '.' :: f2
      | none => []) ++ ('C' :: tailRot r))

/-- The timestamp tail `<d8>-<d6>_<temp>C_<r>deg`. -/
def tailTs (d8 d6 : List Char) (sign : Bool) (ip : List Char)
    (fp : Option (List Char)) (r : List Char) : List Char :=
  d8 ++ ('-' :: (d6 ++ ('_' :: tailTemp sign ip fp r)))

/-- The gain tail `_gain<g>_<d8>-<d6>_<temp>C_<r>deg`. -/
def tailGain (g d8 d6 : List Char) (sign : Bool) (ip : List Char)
    (fp : Option (List Char)) (r : List Char) : List Char :=
  '_' :: 'g' :: 'a' :: 'i' :: 'n' :: (g ++ ('_' :: tailTs d8 d6 sign ip fp r))

/-- The optional filter segment followed by the gain tail. -/
def tailFilter (fl : Option (List Char)) (g d8 d6 : List Char) (sign : Bool)
    (ip : List Char) (fp : Option (List Char)) (r : List Char) : List Char :=
  match fl with
  | some f => '_' :: (f ++ tailGain g d8 d6 sign ip fp r)
  | none => tailGain g d8 d6 sign ip fp r

/-- A filename constructed by substituting the given group values into the
strict composite pattern of `config.FILE_REGEX`. -/
def mkStrictName (e b cam : List Char) (fl : Option (List Char)) (g d8 d6 : List Char)
    (sign : Bool) (ip : List Char) (fp : Option (List Char)) (r : List Char) :
    List Char :=
  '_' :: (e ++ ('s' :: '_' :: 'B' :: 'i' :: 'n' ::
    (b ++ ('_' :: (cam ++ tailFilter fl g d8 d6 sign ip fp r)))))

/-- The groups the round trip must recover. -/
def mkGroups (e b cam : List Char) (fl : Option (List Char)) (g d8 d6 : List Char)
    (sign : Bool) (ip : List Char) (fp : Option (List Char)) (r : List Char) :
    FileGroups :=
  ⟨String.mk e, String.mk b, String.mk cam, fl.map String.mk, String.mk g,
   String.mk (d8 ++ '-' :: d6), String.mk (tempGroup sign ip fp), String.mk r⟩

/-! ### Stage lemmas -/

theorem pExposure_mk (e rest : List Char) (he : e ≠ [])
    (hed : ∀ c ∈ e, isExpChar c = true) :
    pExposure ('_' :: (e ++ ('s' :: rest))) = some (e, rest) := by
  have hg := grab_append isExpChar e ('s' :: rest) hed (head_cond (by decide) rest)
  simp [pExposure, hg, list_isEmpty_false he]

theorem pDigits_app (b rest : List Char) (hb : b ≠ [])
    (hbd : ∀ c ∈ b, c.isDigit = true)
    (hr : ∀ c, rest.head? = some c → c.isDigit = false) :
    pDigits (b ++ rest) = some (b, rest) := by
  have hg := grab_append Char.isDigit b rest hbd hr
  simp [pDigits, hg, list_isEmpty_false hb]

theorem pSeg_app (s rest : List Char) (hs : s ≠ [])
    (hsd : ∀ c ∈ s, (c == '_') = false)
    (hr : ∀ c, rest.head? = some c → (!(c == '_')) = false) :
    pSeg (s ++ rest) = some (s, rest) := by
  have hg := grab_append (fun c => !(c == '_')) s rest
    (fun c hc => by simp [hsd c hc]) hr
  simp [pSeg, hg, list_isEmpty_false hs]

theorem pTimestamp_mk (d8 d6 rest : List Char) (h8 : d8.length = 8)
    (hd8 : ∀ c ∈ d8, c.isDigit = true) (h6 : d6.length = 6)
    (hd6 : ∀ c ∈ d6, c.isDigit = true) :
    pTimestamp (d8 ++ ('-' :: (d6 ++ rest))) = some (d8 ++ '-' :: d6, rest) := by
  have t1 := takeCount_append Char.isDigit d8 ('-' :: (d6 ++ rest)) hd8
  rw [h8] at t1
  have t2 := takeCount_append Char.isDigit d6 rest hd6
  rw [h6] at t2
  simp [pTimestamp, t1, t2]

theorem pTemp_mk (cOk : Char → Bool) (sign : Bool) (ip : List Char)
    (fp : Option (List Char)) (r : List Char)
    (hip : ip ≠ []) (hipd : ∀ c ∈ ip, c.isDigit = true)
    (hfp : ∀ f, fp = some f → f ≠ [] ∧ ∀ c ∈ f, c.isDigit = true)
    (hC : cOk 'C' = true) :
    pTempWith cOk (tailTemp sign ip fp r) =
      some (tempGroup sign ip fp, tailRot r) := by
  cases ip with
  | nil => exact absurd rfl hip
  | cons i0 ipt =>
  have hi0 : i0.isDigit = true := hipd i0 (List.mem_cons_self _ _)
  have hne : (i0 == '-') = false := beq_false_of_p Char.isDigit hi0 (by decide)
  cases fp with
  | none =>
    have hg := grab_append Char.isDigit (i0 :: ipt) ('C' :: tailRot r) hipd
      (head_cond (by decide) _)
    simp only [List.cons_append] at hg
    cases sign with
    | false =>
      simp [tailTemp, tempGroup, pTempWith, hne, hg, hC]
    | true =>
      simp [tailTemp, tempGroup, pTempWith, hg, hC]
  | some f =>
    obtain ⟨hf1, hf2⟩ := hfp f rfl
    cases f with
    | nil => exact absurd rfl hf1
    | cons f0 ft =>
    have hf0 : f0.isDigit = true := hf2 f0 (List.mem_cons_self _ _)
    have hg := grab_append Char.isDigit (i0 :: ipt)
      ('.' :: ((f0 :: ft) ++ ('C' :: tailRot r))) hipd (head_cond (by decide) _)
    simp only [List.cons_append] at hg
    have hgr := grab_append Char.isDigit (f0 :: ft) ('C' :: tailRot r) hf2
      (head_cond (by decide) _)
    simp only [List.cons_append] at hgr
    cases sign with
    | false =>
      simp [tailTemp, tempGroup, pTempWith, hne, hg, hgr, hf0, hC]
    | true =>
      simp [tailTemp, tempGroup, pTempWith, hg, hgr, hf0, hC]

theorem pRot_mk (r : List Char) (hr : r ≠ []) (hrd : ∀ c ∈ r, c.isDigit = true) :
    pRotWith (stripLit ['d', 'e', 'g']) (tailRot r) = some (r, []) := by
  have hg := pDigits_app r ['d', 'e', 'g'] hr hrd (head_cond (by decide) _)
  have hs : stripLit ['d', 'e', 'g'] ['d', 'e', 'g'] = some [] := rfl
  simp [tailRot, pRotWith, hg, hs]

theorem tailFilter_head (fl : Option (List Char)) (g d8 d6 : List Char)
    (sign : Bool) (ip : List Char) (fp : Option (List Char)) (r : List Char) :
    (tailFilter fl g d8 d6 sign ip fp r).head? = some '_' := by
  cases fl <;> rfl

theorem fileRegexTail_mk (e b cam : List Char) (fl : Option (List Char))
    (g d8 d6 : List Char) (sign : Bool) (ip : List Char) (fp : Option (List Char))
    (r : List Char)
    (hg1 : g ≠ []) (hg2 : ∀ c ∈ g, c.isDigit = true)
    (h8 : d8.length = 8) (hd8 : ∀ c ∈ d8, c.isDigit = true)
    (h6 : d6.length = 6) (hd6 : ∀ c ∈ d6, c.isDigit = true)
    (hip : ip ≠ []) (hipd : ∀ c ∈ ip, c.isDigit = true)
    (hfp : ∀ f, fp = some f → f ≠ [] ∧ ∀ c ∈ f, c.isDigit = true)
    (hr1 : r ≠ []) (hr2 : ∀ c ∈ r, c.isDigit = true) :
    fileRegexTail e b cam fl (tailGain g d8 d6 sign ip fp r) =
      some (mkGroups e b cam fl g d8 d6 sign ip fp r) := by
  have hstrip : stripLit ['_', 'g', 'a', 'i', 'n'] (tailGain g d8 d6 sign ip fp r) =
      some (g ++ ('_' :: tailTs d8 d6 sign ip fp r)) := by
    simp [tailGain, stripLit]
  have hdig := pDigits_app g ('_' :: tailTs d8 d6 sign ip fp r) hg1 hg2
    (head_cond (by decide) _)
  have hu1 : stripLit ['_'] ('_' :: tailTs d8 d6 sign ip fp r) =
      some (tailTs d8 d6 sign ip fp r) := rfl
  have hts : pTimestamp (tailTs d8 d6 sign ip fp r) =
      some (d8 ++ '-' :: d6, '_' :: tailTemp sign ip fp r) := by
    have h := pTimestamp_mk d8 d6 ('_' :: tailTemp sign ip fp r) h8 hd8 h6 hd6
    simpa [tailTs] using h
  have hu2 : stripLit ['_'] ('_' :: tailTemp sign ip fp r) =
      some (tailTemp sign ip fp r) := rfl
  have htemp := pTemp_mk (· == 'C') sign ip fp r hip hipd hfp (by decide)
  have hrot := pRot_mk r hr1 hr2
  simp [fileRegexTail, hstrip, hdig, hu1, hts, hu2, htemp, hrot, mkGroups]

theorem fileRegexTail_gain_fail (e b cam f2 : List Char) (d8 d6 : List Char)
    (sign : Bool) (ip : List Char) (fp : Option (List Char)) (r : List Char)
    (h8 : d8.length = 8) (hd8 : ∀ c ∈ d8, c.isDigit = true) :
    fileRegexTail e b cam (some f2) ('_' :: tailTs d8 d6 sign ip fp r) = none := by
  cases d8 with
  | nil => simp at h8
  | cons c0 d8t =>
    have hc0 : c0.isDigit = true := hd8 c0 (List.mem_cons_self _ _)
    have hne : (c0 == 'g') = false := beq_false_of_p Char.isDigit hc0 (by decide)
    have hstrip : stripLit ['_', 'g', 'a', 'i', 'n']
        ('_' :: tailTs (c0 :: d8t) d6 sign ip fp r) = none := by
      simp [tailTs, stripLit, List.cons_append, hne]
    simp [fileRegexTail, hstrip]

theorem fileRegexMatchAt_mk (e b cam : List Char) (fl : Option (List Char))
    (g d8 d6 : List Char) (sign : Bool) (ip : List Char) (fp : Option (List Char))
    (r : List Char)
    (he1 : e ≠ []) (he2 : ∀ c ∈ e, isExpChar c = true)
    (hb1 : b ≠ []) (hb2 : ∀ c ∈ b, c.isDigit = true)
    (hcam1 : cam ≠ []) (hcam2 : ∀ c ∈ cam, (c == '_') = false)
    (hfl : ∀ f, fl = some f → f ≠ [] ∧ ∀ c ∈ f, (c == '_') = false)
    (hg1 : g ≠ []) (hg2 : ∀ c ∈ g, c.isDigit = true)
    (h8 : d8.length = 8) (hd8 : ∀ c ∈ d8, c.isDigit = true)
    (h6 : d6.length = 6) (hd6 : ∀ c ∈ d6, c.isDigit = true)
    (hip : ip ≠ []) (hipd : ∀ c ∈ ip, c.isDigit = true)
    (hfp : ∀ f, fp = some f → f ≠ [] ∧ ∀ c ∈ f, c.isDigit = true)
    (hr1 : r ≠ []) (hr2 : ∀ c ∈ r, c.isDigit = true) :
    fileRegexMatchAt (mkStrictName e b cam fl g d8 d6 sign ip fp r) =
      some (mkGroups e b cam fl g d8 d6 sign ip fp r) := by
  have hexp := pExposure_mk e
    ('_' :: 'B' :: 'i' :: 'n' ::
      (b ++ ('_' :: (cam ++ tailFilter fl g d8 d6 sign ip fp r)))) he1 he2
  have hbinlit : stripLit ['_', 'B', 'i', 'n']
      ('_' :: 'B' :: 'i' :: 'n' ::
        (b ++ ('_' :: (cam ++ tailFilter fl g d8 d6 sign ip fp r)))) =
      some (b ++ ('_' :: (cam ++ tailFilter fl g d8 d6 sign ip fp r))) := by
    simp [stripLit]
  have hbdig := pDigits_app b
    ('_' :: (cam ++ tailFilter fl g d8 d6 sign ip fp r)) hb1 hb2
    (head_cond (by decide) _)
  have hcamseg := pSeg_app cam (tailFilter fl g d8 d6 sign ip fp r) hcam1 hcam2
    (fun c hc => by
      rw [tailFilter_head fl g d8 d6 sign ip fp r] at hc
      have hcc : '_' = c := Option.some.inj hc
      rw [← hcc]
      decide)
  have htail := fileRegexTail_mk e b cam fl g d8 d6 sign ip fp r hg1 hg2 h8 hd8
    h6 hd6 hip hipd hfp hr1 hr2
  cases fl with
  | some f =>
    obtain ⟨hf1, hf2⟩ := hfl f rfl
    have hfseg := pSeg_app f (tailGain g d8 d6 sign ip fp r) hf1 hf2
      (fun c hc => by
        have hh : (tailGain g d8 d6 sign ip fp r).head? = some '_' := rfl
        rw [hh] at hc
        have hcc : '_' = c := Option.some.inj hc
        rw [← hcc]
        decide)
    have hu : ∀ X : List Char, stripLit ['_'] ('_' :: X) = some X := fun X => rfl
    simp only [tailFilter] at hexp hbinlit hbdig hcamseg htail ⊢
    simp [fileRegexMatchAt, mkStrictName, tailFilter, hexp, hbinlit, hbdig,
      hu, hcamseg, hfseg, htail]
  | none =>
    have hgains : ∀ c ∈ ('g' :: 'a' :: 'i' :: 'n' :: g : List Char),
        (c == '_') = false := by
      intro c hc
      rcases List.mem_cons.mp hc with h | hc
      · subst h; decide
      rcases List.mem_cons.mp hc with h | hc
      · subst h; decide
      rcases List.mem_cons.mp hc with h | hc
      · subst h; decide
      rcases List.mem_cons.mp hc with h | hc
      · subst h; decide
      · exact beq_false_of_p Char.isDigit (hg2 c hc) (by decide)
    have hgseg : pSeg ('g' :: 'a' :: 'i' :: 'n' ::
        (g ++ ('_' :: tailTs d8 d6 sign ip fp r))) =
        some ('g' :: 'a' :: 'i' :: 'n' :: g, '_' :: tailTs d8 d6 sign ip fp r) := by
      have h := pSeg_app ('g' :: 'a' :: 'i' :: 'n' :: g)
        ('_' :: tailTs d8 d6 sign ip fp r) (by simp) hgains
        (fun c hc => by
          have hcc : '_' = c := Option.some.inj hc
          rw [← hcc]
          decide)
      simpa [List.cons_append] using h
    have hfail := fileRegexTail_gain_fail e b cam ('g' :: 'a' :: 'i' :: 'n' :: g)
      d8 d6 sign ip fp r h8 hd8
    have hu : ∀ X : List Char, stripLit ['_'] ('_' :: X) = some X := fun X => rfl
    simp only [tailFilter, tailGain] at hexp hbinlit hbdig hcamseg hgseg hfail htail ⊢
    simp [fileRegexMatchAt, mkStrictName, tailFilter, tailGain, hexp, hbinlit,
      hbdig, hu, hcamseg, hgseg, hfail, htail]

/-- C5: the strict composite pattern round-trips.  For any group values of
the right shapes — exposure over digits and dots, digit-only bin, gain,
timestamp halves and rotation, an underscore-free camera and optional
underscore-free filter, and a temperature of optional sign, digits and
optional fractional digits — the filename built by substituting them into
the pattern is matched by `config.FILE_REGEX.search` with exactly those
group values, and `_get_metadata_from_filename` returns that full groupdict,
so the tolerant fallback search is not consulted. -/
theorem c5_strict_roundtrip :
    ∀ (e b cam : List Char) (fl : Option (List Char)) (g d8 d6 : List Char)
      (sign : Bool) (ip : List Char) (fp : Option (List Char)) (r : List Char),
      e ≠ [] → (∀ c ∈ e, isExpChar c = true) →
      b ≠ [] → (∀ c ∈ b, c.isDigit = true) →
      cam ≠ [] → (∀ c ∈ cam, (c == '_') = false) →
      (∀ f, fl = some f → f ≠ [] ∧ ∀ c ∈ f, (c == '_') = false) →
      g ≠ [] → (∀ c ∈ g, c.isDigit = true) →
      d8.length = 8 → (∀ c ∈ d8, c.isDigit = true) →
      d6.length = 6 → (∀ c ∈ d6, c.isDigit = true) →
      ip ≠ [] → (∀ c ∈ ip, c.isDigit = true) →
      (∀ f, fp = some f → f ≠ [] ∧ ∀ c ∈ f, c.isDigit = true) →
      r ≠ [] → (∀ c ∈ r, c.isDigit = true) →
      fileRegexSearchL (mkStrictName e b cam fl g d8 d6 sign ip fp r) =
        some (mkGroups e b cam fl g d8 d6 sign ip fp r) ∧
      get_metadata_from_filename
          (String.mk (mkStrictName e b cam fl g d8 d6 sign ip fp r)) =
        groupdict (mkGroups e b cam fl g d8 d6 sign ip fp r) := by
  intro e b cam fl g d8 d6 sign ip fp r he1 he2 hb1 hb2 hcam1 hcam2 hfl hg1 hg2
    h8 hd8 h6 hd6 hip hipd hfp hr1 hr2
  have hm := fileRegexMatchAt_mk e b cam fl g d8 d6 sign ip fp r he1 he2 hb1 hb2
    hcam1 hcam2 hfl hg1 hg2 h8 hd8 h6 hd6 hip hipd hfp hr1 hr2
  have hsearch : fileRegexSearchL (mkStrictName e b cam fl g d8 d6 sign ip fp r) =
      some (mkGroups e b cam fl g d8 d6 sign ip fp r) := by
    have hshape : mkStrictName e b cam fl g d8 d6 sign ip fp r =
        '_' :: (e ++ ('s' :: '_' :: 'B' :: 'i' :: 'n' ::
          (b ++ ('_' :: (cam ++ tailFilter fl g d8 d6 sign ip fp r))))) := rfl
    rw [hshape] at hm ⊢
    rw [fileRegexSearchL, hm]
  refine ⟨hsearch, ?_⟩
  have hd : (String.mk (mkStrictName e b cam fl g d8 d6 sign ip fp r)).data =
      mkStrictName e b cam fl g d8 d6 sign ip fp r := rfl
  rw [get_metadata_from_filename, hd, hsearch]

/-- Closed witness for C5 at the concrete group values of the repository
test filename. -/
theorem c5_strict_roundtrip_witness :
    get_metadata_from_filename (String.mk (mkStrictName
      ['1', '8', '0', '.', '0'] ['1'] ['2', '9', '4', 'M', 'C']
      (some ['L', '-', 'E', 'x', 't', 'r', 'e', 'm', 'e']) ['1', '2', '0']
      ['2', '0', '2', '5', '0', '4', '0', '5'] ['2', '1', '4', '2', '3', '2']
      true ['1', '0'] none ['9', '0'])) =
    groupdict (mkGroups
      ['1', '8', '0', '.', '0'] ['1'] ['2', '9', '4', 'M', 'C']
      (some ['L', '-', 'E', 'x', 't', 'r', 'e', 'm', 'e']) ['1', '2', '0']
      ['2', '0', '2', '5', '0', '4', '0', '5'] ['2', '1', '4', '2', '3', '2']
      true ['1', '0'] none ['9', '0']) :=
  (c5_strict_roundtrip
    ['1', '8', '0', '.', '0'] ['1'] ['2', '9', '4', 'M', 'C']
    (some ['L', '-', 'E', 'x', 't', 'r', 'e', 'm', 'e']) ['1', '2', '0']
    ['2', '0', '2', '5', '0', '4', '0', '5'] ['2', '1', '4', '2', '3', '2']
    true ['1', '0'] none ['9', '0']
    (by decide) (by decide) (by decide) (by decide) (by decide) (by decide)
    (by decide) (by decide) (by decide) (by decide) (by decide) (by decide)
    (by decide) (by decide) (by decide) (by decide) (by decide) (by decide)).2
